import Mathlib

/-!
# nomad-artifact-server: job-scoped upload protocol

A shallow embedding of `server/server.go` (ID generator `uuid`, upload handler
`jobsHandler`, `writeError`, the static file route of `main`) and of
`uploader/main.go` (`postJobFile`, the base URI normalisation of `init`).

Conventions.
* Go strings are Lean `String`s, byte slices holding text are `List Char`,
  raw bytes are `Nat`s (a Go byte is below 256).
* A collaborator outside the repository (random source, filesystem, HTTP
  exchange) is a parameter of the function that calls it.
* An index expression that Go checks at run time returns `panic` in the model
  when the index is out of range.
-/

namespace ArtifactServer

/-! ## ID generator (`server.go`, `uuid`) -/

/-- The finite part of the random source that a run of `uuid` can observe:
the batches that successive `io.ReadFull(rand.Reader, r)` calls deliver, up
to the first call that fails with the given error.  A run of `uuid` that
returns has read finitely many batches, so it is the run on such a source.
In Go every batch has `length + length/4 = 10` bytes; the model takes a
batch of any size. -/
inductive RandSource where
  | fail (err : String) : RandSource
  | batch (r : List Nat) (rest : RandSource) : RandSource
deriving Repr, DecidableEq

/-- What a call of a Go function that returns `(string, error)` can do. -/
inductive Outcome where
  | ok (s : String) : Outcome
  | err (e : String) : Outcome
  | panic : Outcome
deriving Repr, DecidableEq

/-- The alphabet: `var chars = []byte("ABC...XYZabc...xyz0123456789")`. -/
def chars : List Char :=
  "ABCDEFGHIJKLMNOPQRSTUVWXYZabcdefghijklmnopqrstuvwxyz0123456789".data

/-- The target length: `length := 8`. -/
def length : Nat := 8

/-- The rejection bound: `maxrb := 256 - (256 % len(chars))`. -/
def maxrb : Nat := 256 - (256 % chars.length)

/-- The test of the inner loop that skips a random byte: `c > maxrb`. -/
def rejected (c : Nat) : Bool := decide (c > maxrb)

/-- How the inner loop `for _, rb := range r` leaves one batch. -/
inductive BatchExit where
  | done (s : String) : BatchExit
  | next (b : List Char) (i : Nat) : BatchExit
  | panic : BatchExit
deriving Repr, DecidableEq

/-- The inner loop of `uuid` over the bytes of one batch, on the buffer `b`
and the write index `i`, both of which live across batches. -/
def uuidBatch : List Nat → List Char → Nat → BatchExit
  | [], b, i => .next b i
  | rb :: r, b, i =>
    let c := rb
    if rejected c then uuidBatch r b i
    else
      match chars[c % chars.length]? with
      | none => .panic
      | some ch =>
        if i < b.length then
          let b1 := b.set i ch
          let i1 := i + 1
          if i1 = length then .done (String.mk b1) else uuidBatch r b1 i1
        else .panic

/-- The outer loop `for { ... }` of `uuid`: read a batch, run the inner loop. -/
def uuidLoop : RandSource → List Char → Nat → Outcome
  | .fail e, _, _ => .err e
  | .batch r rest, b, i =>
    match uuidBatch r b i with
    | .done s => .ok s
    | .panic => .panic
    | .next b1 i1 => uuidLoop rest b1 i1

/-- The ID generator `uuid`: `b := make([]byte, length)`, `i := 0`, then the loop. -/
def uuid (src : RandSource) : Outcome :=
  uuidLoop src (List.replicate length (Char.ofNat 0)) 0

/-- The number of byte values `0..255` that `uuid` accepts and maps to the
alphabet position `k`. -/
def acceptedFor (k : Nat) : Nat :=
  ((List.range 256).filter (fun c => !rejected c && decide (c % chars.length = k))).length

/-- The loop invariant of `uuid`: the buffer has `length` cells, the write
index is inside it, and the cells below the index hold alphabet characters. -/
def UuidInv (b : List Char) (i : Nat) : Prop :=
  b.length = length ∧ i < length ∧ ∀ j, j < i → ∀ c, b[j]? = some c → c ∈ chars

/-- What the invariant gives at each exit of the inner loop. -/
def BatchExitOk : BatchExit → Prop
  | .done s => s.length = length ∧ ∀ c ∈ s.data, c ∈ chars
  | .next b i => UuidInv b i
  | .panic => False

/-! ## Strings and paths (Go `strings`, `path/filepath` on a Unix host) -/

/-- Go `strings.HasPrefix`. -/
def HasPrefix (s pre : String) : Bool := pre.data.isPrefixOf s.data

/-- Go `strings.HasSuffix`. -/
def HasSuffix (s suf : String) : Bool := suf.data.reverse.isPrefixOf s.data.reverse

/-- Go `strings.Join(elems, sep)`. -/
def stringsJoin : List String → String → String
  | [], _ => ""
  | [a], _ => a
  | a :: b :: rest, sep => a ++ sep ++ stringsJoin (b :: rest) sep

/-- The elements of a path between its `/` separators, empty ones included. -/
def splitSlash : List Char → List (List Char)
  | [] => [[]]
  | c :: cs =>
    if c = '/' then [] :: splitSlash cs
    else
      match splitSlash cs with
      | [] => [[c]]
      | seg :: segs => (c :: seg) :: segs

/-- One element of a path processed by `Clean`, on the elements kept so far
(the last kept element first): an empty element and `.` are dropped, `..`
removes the element before it, is dropped at the root of a rooted path, and
is kept at the start of a relative path; any other element is kept. -/
def cleanStep (rooted : Bool) (kept : List (List Char)) (seg : List Char) : List (List Char) :=
  if seg = [] ∨ seg = ['.'] then kept
  else if seg = ['.', '.'] then
    match kept with
    | [] => if rooted then [] else [seg]
    | top :: below => if top = ['.', '.'] then seg :: kept else below
  else seg :: kept

/-- The elements joined by `/`. -/
def joinSlash : List (List Char) → List Char
  | [] => []
  | [a] => a
  | a :: b :: rest => a ++ '/' :: joinSlash (b :: rest)

/-- Go `path.Clean` and Unix `filepath.Clean` on the characters of a path:
the shortest equivalent path, `.` for the empty one. -/
def cleanChars (path : List Char) : List Char :=
  match path with
  | [] => ['.']
  | c :: _ =>
    let rooted := decide (c = '/')
    let kept := (splitSlash path).foldl (cleanStep rooted) []
    let out := joinSlash kept.reverse
    if rooted then '/' :: out
    else if out = [] then ['.'] else out

/-- Go `path.Clean` / `filepath.Clean`. -/
def Clean (path : String) : String := String.mk (cleanChars path.data)

/-- Go `filepath.Join` (Unix): the elements from the first non-empty one on
are joined by `/` and the result is cleaned; all elements empty gives `""`. -/
def Join : List String → String
  | [] => ""
  | e :: es => if e ≠ "" then Clean (stringsJoin (e :: es) "/") else Join es

/-- Go `filepath.Dir` (Unix): the cleaned path up to its last separator. -/
def Dir (path : String) : String :=
  Clean (String.mk (path.data.reverse.dropWhile (fun c => c ≠ '/')).reverse)

/-! ## The operating system, as the handler sees it -/

/-- A filesystem entry: a directory, or a regular file with its bytes. -/
inductive Node where
  | dir : Node
  | file (content : List Nat) : Node
deriving Repr, DecidableEq

/-- The filesystem calls of the server on a filesystem state `σ`.
`MkdirAll` and `WriteFile` answer with the error they return (`none` for
`nil`) and the state they leave; `Open` answers with what is found at the
path, `none` when the path cannot be opened. -/
structure OS (σ : Type) where
  MkdirAll : String → Nat → σ → Option String × σ
  WriteFile : String → List Nat → Nat → σ → Option String × σ
  Open : String → σ → Option Node

/-- Go `os.ModeDir`, the permission argument the handler gives `MkdirAll`. -/
def ModeDir : Nat := 2 ^ 31

/-! ## Server (`server.go`) -/

/-- The process-wide variables `baseuri` and `storage` of the server. -/
structure Config where
  baseuri : String
  storage : String
deriving Repr, DecidableEq

/-- The `JSONResponse` type: `map[string]string`, as its key/value pairs. -/
abbrev JSONResponse := List (String × String)

/-- The presence test of a Go map: `v, ok := m[k]`. -/
def JSONResponse.get (m : JSONResponse) (k : String) : Option String := m.lookup k

/-- The `http.ResponseWriter` after the handler ran: the headers it set and
the values it printed with `fmt.Fprint` (each printed as its `String()`,
the indented JSON text of the map), in order. -/
structure ResponseWriter where
  header : List (String × String)
  body : List JSONResponse
deriving Repr, DecidableEq

/-- The part of `*http.Request` the handler reads: the method, the headers
and what `ioutil.ReadAll(r.Body)` returns. -/
structure Request where
  Method : String
  Header : List (String × String)
  Body : Except String (List Nat)

/-- Go `r.Header.Get(key)`: the value of the header, `""` when it is absent. -/
def Request.HeaderGet (r : Request) (key : String) : String :=
  (r.Header.lookup key).getD ""

/-- Go `w.Header().Set(key, value)`. -/
def ResponseWriter.HeaderSet (w : ResponseWriter) (key value : String) : ResponseWriter :=
  { w with header := (key, value) :: w.header.filter (fun kv => kv.1 ≠ key) }

/-- Go `fmt.Fprint(w, j)` for a `JSONResponse` `j`. -/
def ResponseWriter.Fprint (w : ResponseWriter) (j : JSONResponse) : ResponseWriter :=
  { w with body := w.body ++ [j] }

/-- Go `%q` of a string without characters that need escaping. -/
def quote (s : String) : String := "\"" ++ s ++ "\""

/-- The function `writeError`: set the content type, print `{"error": msg}`. -/
def writeError (w : ResponseWriter) (msg : String) : ResponseWriter :=
  (w.HeaderSet "Content-Type" "application/json").Fprint [("error", msg)]

/-- The function `jobsHandler` on a fresh response writer.  `none` is a
panic of the handler's goroutine (no response is written). -/
def jobsHandler {σ : Type} (cfg : Config) (os : OS σ) (rand : RandSource) (r : Request)
    (fs : σ) : Option (ResponseWriter × σ) :=
  let w : ResponseWriter := { header := [], body := [] }
  let subDirName := "output"
  match uuid rand with
  | .panic => none
  | .err err => some (writeError w ("uuid generation failed: " ++ err), fs)
  | .ok uniqId =>
    let w := w.HeaderSet "Content-Type" "application/json"
    if r.Method ≠ "POST" then some (writeError w "not a valid endpoint", fs)
    else
      let jobFileName := r.HeaderGet "X-JOB-FILENAME"
      let jobId := r.HeaderGet "X-JOB-ID"
      let (jobId, subDirName) := if jobId = "" then (uniqId, "input") else (jobId, subDirName)
      match r.Body with
      | .error err => some (writeError w ("reading from body failed: " ++ err), fs)
      | .ok content =>
        let indir := Join [cfg.storage, jobId, "input"]
        let outdir := Join [cfg.storage, jobId, "output"]
        let fs := (os.MkdirAll indir ModeDir fs).2
        let fs := (os.MkdirAll outdir ModeDir fs).2
        let file := Join [cfg.storage, jobId, subDirName, jobFileName]
        match os.WriteFile file content 0o755 fs with
        | (some err, fs) =>
          some (writeError w ("writing file to " ++ quote file ++ " failed: " ++ err), fs)
        | (none, fs) =>
          some (w.Fprint [("jobId", jobId), ("uploadedFileName", jobFileName),
            ("uri", cfg.baseuri ++ jobId ++ "/" ++ subDirName ++ "/" ++ jobFileName)], fs)

/-- The protocol's success body: no `error` key, and both `uri` and `jobId`. -/
def isSuccess (j : JSONResponse) : Bool :=
  (j.get "error").isNone && (j.get "uri").isSome && (j.get "jobId").isSome

/-- The state after the two `os.MkdirAll` calls of `jobsHandler` for the job `jobId`. -/
def afterMkdirs {σ : Type} (cfg : Config) (os : OS σ) (jobId : String) (fs : σ) : σ :=
  (os.MkdirAll (Join [cfg.storage, jobId, "output"]) ModeDir
    (os.MkdirAll (Join [cfg.storage, jobId, "input"]) ModeDir fs).2).2

/-- The job ID `jobsHandler` settles on, from the candidate ID and the request:
the candidate when the `X-JOB-ID` header is empty, the header otherwise. -/
def chosenJobId (uniqId : String) (r : Request) : String :=
  if r.HeaderGet "X-JOB-ID" = "" then uniqId else r.HeaderGet "X-JOB-ID"

/-- The direction `jobsHandler` settles on: `input` when the `X-JOB-ID`
header is empty, `output` otherwise. -/
def chosenSubDir (r : Request) : String :=
  if r.HeaderGet "X-JOB-ID" = "" then "input" else "output"

/-- The path `jobsHandler` gives `ioutil.WriteFile`. -/
def targetFile (cfg : Config) (uniqId : String) (r : Request) : String :=
  Join [cfg.storage, chosenJobId uniqId r, chosenSubDir r, r.HeaderGet "X-JOB-FILENAME"]

/-- The response writer of `jobsHandler` once the content type is set. -/
def jsonWriter : ResponseWriter :=
  ({ header := [], body := [] } : ResponseWriter).HeaderSet "Content-Type" "application/json"

/-! ## Static retrieval (`main`: the mux with `http.StripPrefix("/", http.FileServer(http.Dir(storage)))`) -/

/-- The part of a string before the first occurrence of `sep` (all of it
when `sep` does not occur): the first result of Go `strings.Cut`. -/
def cutBefore (sep : Char) (s : List Char) : List Char := s.takeWhile (fun c => c ≠ sep)

/-- The part of a string after the first occurrence of `sep` (nothing when
`sep` does not occur): the second result of Go `strings.Cut`. -/
def cutAfter (sep : Char) (s : List Char) : List Char := (s.dropWhile (fun c => c ≠ sep)).drop 1

/-- An ASCII control character (`net/url`, `stringContainsCTLByte`). -/
def isCTL (c : Char) : Bool := decide (c.toNat < 0x20) || decide (c.toNat = 0x7f)

/-- The scheme of a URL and what follows its colon (`net/url`, `getScheme`):
a letter, then letters, digits, `+`, `-`, `.`, up to the first colon. -/
def getScheme : List Char → List Char → Option (List Char × List Char)
  | _, [] => none
  | acc, c :: cs =>
    if c.isAlpha then getScheme (acc ++ [c]) cs
    else if c.isDigit ∨ c = '+' ∨ c = '-' ∨ c = '.' then
      (if acc = [] then none else getScheme (acc ++ [c]) cs)
    else if c = ':' then (if acc = [] then none else some (acc, cs))
    else none

/-- The value of a hexadecimal digit. -/
def unhex (c : Char) : Option Nat :=
  if '0' ≤ c ∧ c ≤ '9' then some (c.toNat - '0'.toNat)
  else if 'a' ≤ c ∧ c ≤ 'f' then some (c.toNat - 'a'.toNat + 10)
  else if 'A' ≤ c ∧ c ≤ 'F' then some (c.toNat - 'A'.toNat + 10)
  else none

/-- A unit of a percent-encoded text: a character that stands for itself, or
the byte that an escape `%XY` stands for. -/
inductive PathUnit where
  | lit (c : Char) : PathUnit
  | byte (b : Nat) : PathUnit
deriving Repr, DecidableEq

/-- The units of a percent-encoded path (`net/url`, `unescape` in path
mode): `%XY` is the byte with hexadecimal value `XY`, a `%` not followed by
two hexadecimal digits is an error, every other character stands for itself. -/
def unescapeUnits : List Char → Option (List PathUnit)
  | [] => some []
  | c :: rest =>
    if c = '%' then
      match rest with
      | a :: b :: rest2 =>
        match unhex a, unhex b with
        | some x, some y => (unescapeUnits rest2).map (fun t => PathUnit.byte (16 * x + y) :: t)
        | _, _ => none
      | _ => none
    else (unescapeUnits rest).map (fun t => PathUnit.lit c :: t)

/-- The text that the units spell.  A Go string is a sequence of bytes and a
Lean `String` a sequence of characters, so the decoded bytes are read as
UTF-8: the first argument is the state inside a multi-byte character (bytes
still to come, the bits read so far, the least value the character may
have).  `none` when the bytes are not UTF-8: such a path is no `String`. -/
def decodeUnits : Option (Nat × Nat × Nat) → List PathUnit → Option (List Char)
  | none, [] => some []
  | some _, [] => none
  | none, .lit c :: rest => (decodeUnits none rest).map (fun t => c :: t)
  | some _, .lit _ :: _ => none
  | none, .byte b :: rest =>
    if b < 0x80 then (decodeUnits none rest).map (fun t => Char.ofNat b :: t)
    else if 0xC2 ≤ b ∧ b ≤ 0xDF then decodeUnits (some (1, b - 0xC0, 0x80)) rest
    else if 0xE0 ≤ b ∧ b ≤ 0xEF then decodeUnits (some (2, b - 0xE0, 0x800)) rest
    else if 0xF0 ≤ b ∧ b ≤ 0xF4 then decodeUnits (some (3, b - 0xF0, 0x10000)) rest
    else none
  | some (k, acc, lo), .byte b :: rest =>
    if 0x80 ≤ b ∧ b ≤ 0xBF then
      if k ≤ 1 then
        (if lo ≤ acc * 64 + (b - 0x80) ∧ (acc * 64 + (b - 0x80)).isValidChar then
          (decodeUnits none rest).map (fun t => Char.ofNat (acc * 64 + (b - 0x80)) :: t)
        else none)
      else decodeUnits (some (k - 1, acc * 64 + (b - 0x80), lo)) rest
    else none

/-- Percent-decoding of a URL path (`net/url`, `unescape` in path mode). -/
def unescape (s : List Char) : Option (List Char) :=
  match unescapeUnits s with
  | none => none
  | some units => decodeUnits none units

/-- A character of a host name: a letter, a digit, `-` or `.`. -/
def hostChar (c : Char) : Bool := c.isAlphanum || c = '-' || c = '.'

/-- An authority of the form `host` or `host:port`: a non-empty host name of
letters, digits, `-` and `.`, and a port of digits. -/
def plainAuthority (a : List Char) : Bool :=
  !(a.takeWhile (fun c => c ≠ ':')).isEmpty && (a.takeWhile (fun c => c ≠ ':')).all hostChar &&
    ((a.dropWhile (fun c => c ≠ ':')).drop 1).all Char.isDigit

/-- The decoded path that a client asks the server for when it fetches the
URL `rawURL`, for the URLs of the form `http://host/path` and
`https://host/path` with a plain authority (`net/url`, `Parse`, and the
request line of `net/http`): the text before `#` has no control character,
the fragment after `#` is well escaped, the scheme is `http` or `https` in
any case, the query after `?` is cut off, and the path after the authority
is percent-decoded, `/` standing for an empty path.  `none` for any other
text: a URL that `Parse` rejects, one that names no HTTP server, one with
user information or an IP literal (not modelled), one whose decoded path is
not UTF-8. -/
def urlPath (rawURL : String) : Option String :=
  if (cutBefore '#' rawURL.data).any isCTL then none
  else if (unescapeUnits (cutAfter '#' rawURL.data)).isNone then none
  else
    match getScheme [] (cutBefore '#' rawURL.data) with
    | none => none
    | some (scheme, rest) =>
      if scheme.map Char.toLower = ['h', 't', 't', 'p'] ∨
          scheme.map Char.toLower = ['h', 't', 't', 'p', 's'] then
        let rest := cutBefore '?' rest
        if ['/', '/'].isPrefixOf rest then
          if plainAuthority (cutBefore '/' (rest.drop 2)) then
            match unescape ((rest.drop 2).dropWhile (fun c => c ≠ '/')) with
            | none => none
            | some [] => some "/"
            | some path => some (String.mk path)
          else none
        else none
      else none

/-- Go `strings.TrimSuffix`. -/
def TrimSuffix (s suf : String) : String :=
  if HasSuffix s suf then String.mk (s.data.take (s.data.length - suf.data.length)) else s

/-- Go `path.Base`: the last element of a path, trailing slashes removed;
`.` for the empty path and `/` for a path of slashes. -/
def Base (path : String) : String :=
  if path = "" then "."
  else
    match ((path.data.reverse.dropWhile (fun c => c = '/')).takeWhile (fun c => c ≠ '/')).reverse with
    | [] => "/"
    | b => String.mk b

/-- The function `cleanPath` of `net/http`: the canonical form of a request
path, with a leading slash, cleaned, and with its trailing slash kept. -/
def cleanPath (p : String) : String :=
  if p = "" then "/"
  else
    let p := if ¬ HasPrefix p "/" then "/" ++ p else p
    let np := Clean p
    if HasSuffix p "/" ∧ np ≠ "/" then
      (if p.data.length = np.data.length + 1 ∧ HasPrefix p np then p else np ++ "/")
    else np

/-- What the server answers a `GET`: the bytes of a file, a redirect to
another location (the query of the request, which Go appends to the
location, is left out), the listing of a directory, an error status, or
the answer of `jobsHandler` (an error object, the method not being `POST`). -/
inductive Answer where
  | content (bytes : List Nat) : Answer
  | redirect (location : String) : Answer
  | listing : Answer
  | failed : Answer
  | jobs : Answer
deriving Repr, DecidableEq

/-- The path that `http.Dir(storage).Open(name)` opens:
`filepath.Join(dir, path.Clean("/" + name))`, with `dir = "."` for an empty
`storage`. -/
def dirPath (cfg : Config) (name : String) : String :=
  Join [if cfg.storage = "" then "." else cfg.storage, Clean ("/" ++ name)]

/-- Go `http.Dir(storage).Open(name)`: a name with a NUL character is refused. -/
def dirOpen {σ : Type} (cfg : Config) (os : OS σ) (name : String) (fs : σ) : Option Node :=
  if name.data.contains (Char.ofNat 0) then none else os.Open (dirPath cfg name) fs

/-- The function `serveFile` of `net/http` as `http.FileServer` calls it, for
the request path `upath` and the cleaned name `name`: a path that ends in
`/index.html` is redirected to `./`; a name that cannot be opened is an
error; a file asked for with a trailing slash and a directory asked for
without one are redirected; a directory is answered with its `index.html`
when that is a file, with its listing otherwise; a file is answered with
its bytes. -/
def serveFile {σ : Type} (cfg : Config) (os : OS σ) (upath name : String) (fs : σ) : Answer :=
  if HasSuffix upath "/index.html" then .redirect "./"
  else
    match dirOpen cfg os name fs with
    | none => .failed
    | some (.file bytes) =>
      if HasSuffix upath "/" then .redirect ("../" ++ Base upath) else .content bytes
    | some .dir =>
      if ¬ HasSuffix upath "/" then .redirect (Base upath ++ "/")
      else
        match dirOpen cfg os (TrimSuffix name "/" ++ "/index.html") fs with
        | some (.file bytes) => .content bytes
        | _ => .listing

/-- The static route of `main`, `http.StripPrefix("/", http.FileServer(_))`:
the leading slash of the request path is removed (an error without one),
the file server puts a slash in front again, cleans the path and serves
the file of that name. -/
def staticHandler {σ : Type} (cfg : Config) (os : OS σ) (upath : String) (fs : σ) : Answer :=
  if HasPrefix upath "/" then
    let p := String.mk (upath.data.drop 1)
    let upath := if ¬ HasPrefix p "/" then "/" ++ p else p
    serveFile cfg os upath (Clean upath) fs
  else .failed

/-- The mux of `main` on a `GET` of the decoded request path `upath`: a path
that is not in canonical form is redirected to its canonical form, `/jobs`
goes to `jobsHandler`, every other path to the static route. -/
def mux {σ : Type} (cfg : Config) (os : OS σ) (upath : String) (fs : σ) : Answer :=
  if cleanPath upath ≠ upath then .redirect (cleanPath upath)
  else if upath = "/jobs" then .jobs
  else staticHandler cfg os upath fs

/-- Fetching a URI with one `GET`: the answer of the server to the request
for the path of the URI, `none` when the URI has no such path. -/
def fetch {σ : Type} (cfg : Config) (os : OS σ) (uri : String) (fs : σ) : Option Answer :=
  match urlPath uri with
  | none => none
  | some upath => some (mux cfg os upath fs)

/-- A character that stands for itself in the path of a URI and in a file
name: not `/`, `?`, `#`, `%`, and not a control character. -/
def nameChar (c : Char) : Bool :=
  decide (c ≠ '/') && decide (c ≠ '?') && decide (c ≠ '#') && decide (c ≠ '%') && !isCTL c

/-- A path element that is kept as it is by `Clean` and by a URI: not
empty, not `.`, not `..`, made of characters that stand for themselves. -/
def plainElem (seg : List Char) : Bool :=
  decide (seg ≠ []) && decide (seg ≠ ['.']) && decide (seg ≠ ['.', '.']) && seg.all nameChar

/-- A name that is one or more plain path elements separated by single slashes. -/
def plainPath (s : String) : Bool := (splitSlash s.data).all plainElem

/-- A file name that the static route serves as a file: a plain path whose
last element is not `index.html`. -/
def servedName (s : String) : Bool :=
  plainPath s && decide ((splitSlash s.data).getLast? ≠ some ['i', 'n', 'd', 'e', 'x', '.', 'h', 't', 'm', 'l'])

/-! ## A filesystem

A small directory tree, used to run the handler on concrete requests.  The
keys are cleaned paths; `.`, `/` and the ancestors of the working directory
are directories that always exist; the server process may traverse and
write every directory, so permission bits play no part. -/

/-- The entries of the tree by path; the first entry of a path is the current one. -/
abbrev Disk := List (String × Node)

/-- A path that names the working directory, the root, or an ancestor of the
working directory (`..`, `../..`, ...): a directory that always exists. -/
def alwaysDir (path : String) : Bool :=
  path = "." || path = "/" || (splitSlash path.data).all (fun seg => seg = ['.', '.'])

/-- Unix `stat`. -/
def Disk.stat (d : Disk) (path : String) : Option Node :=
  if alwaysDir path then some .dir else d.lookup path

/-- Unix `mkdir`: the path must not be empty or exist, and its parent must be
a directory. -/
def Disk.Mkdir (path : String) (d : Disk) : Option String × Disk :=
  if path = "" then (some "mkdir : no such file or directory", d)
  else
    match d.stat path with
    | some _ => (some ("mkdir " ++ path ++ ": file exists"), d)
    | none =>
      match d.stat (Dir path) with
      | some .dir => (none, (path, .dir) :: d)
      | some (.file _) => (some ("mkdir " ++ path ++ ": not a directory"), d)
      | none => (some ("mkdir " ++ path ++ ": no such file or directory"), d)

/-- Go `os.MkdirAll` on a cleaned path: nothing to do for a directory, an
error for a file, and otherwise the parent is made first, then the path.
The first argument bounds the depth of the recursion on the parents. -/
def Disk.MkdirAllAux : Nat → String → Disk → Option String × Disk
  | n, path, d =>
    match d.stat path with
    | some .dir => (none, d)
    | some (.file _) => (some ("mkdir " ++ path ++ ": not a directory"), d)
    | none =>
      match n with
      | 0 => Disk.Mkdir path d
      | m + 1 =>
        match Disk.MkdirAllAux m (Dir path) d with
        | (some err, d1) => (some err, d1)
        | (none, d1) => Disk.Mkdir path d1

/-- Go `os.MkdirAll`: a path has fewer parents than characters. -/
def Disk.MkdirAll (path : String) (d : Disk) : Option String × Disk :=
  Disk.MkdirAllAux path.length path d

/-- Go `ioutil.WriteFile`: create or truncate the file and write the bytes;
the path must not be empty or a directory and its parent must be a directory. -/
def Disk.WriteFile (path : String) (content : List Nat) (d : Disk) : Option String × Disk :=
  if path = "" then (some "open : no such file or directory", d)
  else
    match d.stat path with
    | some .dir => (some ("open " ++ path ++ ": is a directory"), d)
    | _ =>
      match d.stat (Dir path) with
      | some .dir => (none, (path, .file content) :: d)
      | some (.file _) => (some ("open " ++ path ++ ": not a directory"), d)
      | none => (some ("open " ++ path ++ ": no such file or directory"), d)

/-- The filesystem calls on a `Disk`. -/
def diskOS : OS Disk where
  MkdirAll := fun path _ d => Disk.MkdirAll path d
  WriteFile := fun path content _ d => Disk.WriteFile path content d
  Open := fun path d => d.stat path

/-- A path element that `Clean` keeps as it is: not empty, not `.`, not `..`. -/
def PlainSeg (s : List Char) : Prop := s ≠ [] ∧ s ≠ ['.'] ∧ s ≠ ['.', '.']

/-! ## Upload client (`uploader/main.go`) -/

/-- What the HTTP exchange of `postJobFile` comes to, by the first step that
fails: building the request, sending it, reading the response body, parsing
the body as a JSON object of strings; or the body and the parsed map. -/
inductive Exchange where
  | newRequestErr (err : String) : Exchange
  | doErr (err : String) : Exchange
  | readErr (err : String) : Exchange
  | unmarshalErr (body : String) (err : String) : Exchange
  | response (body : String) (m : JSONResponse) : Exchange

/-- The request `postJobFile` builds: a `POST` of the content with the
content type, the file name header and, for a non-empty job ID, the job ID header. -/
def uploadRequest (content : List Nat) (fileName : String) (jobid : String) : Request :=
  let header := [("Content-Type", "application/json"), ("X-JOB-FILENAME", fileName)]
  let header := if jobid ≠ "" then header ++ [("X-JOB-ID", jobid)] else header
  { Method := "POST", Header := header, Body := .ok content }

/-- The function `postJobFile`: post the content with the routing headers to
`baseuri + "jobs"` over the network `net`, then read the answer: the
`error` key first, then `uri`, then `jobId`. -/
def postJobFile (baseuri : String) (net : String → Request → Exchange)
    (content : List Nat) (fileName : String) (jobid : String) : Except String (String × String) :=
  match net (baseuri ++ "jobs") (uploadRequest content fileName jobid) with
  | .newRequestErr err => .error err
  | .doErr err => .error ("request to " ++ baseuri ++ "jobs failed: " ++ err)
  | .readErr err => .error ("reading response body failed: " ++ err)
  | .unmarshalErr _ err => .error ("parsing body as json failed: " ++ err)
  | .response body response =>
    match response.get "error" with
    | some respError => .error ("server responded with " ++ respError)
    | none =>
      match response.get "uri" with
      | none => .error ("Upload Error - Server Response " ++ body)
      | some uploadedFileUri =>
        match response.get "jobId" with
        | none => .error ("Upload Error - Server Response " ++ body)
        | some jobId => .ok (uploadedFileUri, jobId)

/-- The base URI normalisation of the uploader's `init`, on the value of the
`-b` flag: a trailing `/` is added when there is none, then `http://` is put
in front when the value does not start with `http`. -/
def uploaderInit (flagB : String) : String :=
  let baseuri := flagB
  let baseuri := if ¬ HasSuffix baseuri "/" then baseuri ++ "/" else baseuri
  let baseuri := if ¬ HasPrefix baseuri "http" then "http://" ++ baseuri else baseuri
  baseuri

/-! ## Sample requests -/

/-- The default configuration of the server: the values of the `-b` and `-s` flags. -/
def sampleCfg : Config := { baseuri := "http://localhost/", storage := "./storage/" }

/-- A random source whose first batch gives the ID `AbCd1234`. -/
def sampleSource : RandSource := .batch [0, 27, 2, 29, 53, 54, 55, 56, 1, 1] (.fail "EOF")

/-- A `POST` with the two routing headers and a body. -/
def samplePost (jobId fileName : String) (body : List Nat) : Request :=
  { Method := "POST", Header := [("X-JOB-FILENAME", fileName), ("X-JOB-ID", jobId)],
    Body := .ok body }

/-! # Theorems -/

theorem chars_length : chars.length = 62 := by decide

theorem uuidInv_init : UuidInv (List.replicate length (Char.ofNat 0)) 0 := by
  refine ⟨by simp, by decide, ?_⟩
  intro j hj
  omega

theorem uuidBatch_inv (r : List Nat) : ∀ (b : List Char) (i : Nat),
    UuidInv b i → BatchExitOk (uuidBatch r b i) := by
  induction r with
  | nil => intro b i h; simpa [uuidBatch, BatchExitOk] using h
  | cons rb r ih =>
    intro b i h
    obtain ⟨hlen, hi, hmem⟩ := h
    unfold uuidBatch
    simp only
    split
    · exact ih b i ⟨hlen, hi, hmem⟩
    · have hlt : rb % chars.length < chars.length :=
        Nat.mod_lt _ (by rw [chars_length]; decide)
      split
      · rename_i hnone
        rw [List.getElem?_eq_none_iff] at hnone
        omega
      · rename_i ch hsome
        have hch : ch ∈ chars := List.getElem?_mem hsome
        have hib : i < b.length := by rw [hlen]; exact hi
        rw [if_pos hib]
        have hmem1 : ∀ j, j < i + 1 → ∀ c, (b.set i ch)[j]? = some c → c ∈ chars := by
          intro j hj c hc
          rw [List.getElem?_set] at hc
          by_cases hij : i = j
          · subst hij
            simp [hib] at hc
            exact hc ▸ hch
          · rw [if_neg hij] at hc
            exact hmem j (by omega) c hc
        split
        · rename_i hfull
          refine ⟨by simp [hlen], ?_⟩
          intro c hc
          simp only at hc
          obtain ⟨j, hj⟩ := List.mem_iff_getElem?.mp hc
          have hjl : j < (b.set i ch).length := by
            by_contra hcon
            rw [List.getElem?_eq_none_iff.mpr (by omega)] at hj
            cases hj
          rw [List.length_set, hlen, ← hfull] at hjl
          exact hmem1 j hjl c hj
        · rename_i hnot
          exact ih _ _ ⟨by simp [hlen], by omega, hmem1⟩

theorem uuidLoop_inv (src : RandSource) : ∀ (b : List Char) (i : Nat), UuidInv b i →
    uuidLoop src b i ≠ .panic ∧
      ∀ s, uuidLoop src b i = .ok s → s.length = length ∧ ∀ c ∈ s.data, c ∈ chars := by
  induction src with
  | fail e => intro b i _; simp [uuidLoop]
  | batch r rest ih =>
    intro b i h
    have hb := uuidBatch_inv r b i h
    unfold uuidLoop
    cases hr : uuidBatch r b i with
    | done s =>
      rw [hr] at hb
      refine ⟨by simp, ?_⟩
      intro s1 hs1
      simp only [Outcome.ok.injEq] at hs1
      exact hs1 ▸ hb
    | next b1 i1 =>
      rw [hr] at hb
      exact ih b1 i1 hb
    | panic =>
      rw [hr] at hb
      exact hb.elim

theorem uuid_no_panic (src : RandSource) : uuid src ≠ .panic :=
  (uuidLoop_inv src _ 0 uuidInv_init).1

theorem uuid_ok_chars (src : RandSource) (s : String) (h : uuid src = .ok s) :
    s.length = length ∧ ∀ c ∈ s.data, c ∈ chars :=
  (uuidLoop_inv src _ 0 uuidInv_init).2 s h

theorem chars_alphanum : ∀ c ∈ chars, c.isAlphanum = true := by decide

/-- C1: `uuid` never indexes out of range, and every ID it returns without
error has exactly 8 characters, each one of the 62 characters of the
alphabet `A-Z`, `a-z`, `0-9`, however many batches the characters came from. -/
theorem uuid_eight_alphanumeric (src : RandSource) :
    uuid src ≠ .panic ∧
      ∀ s, uuid src = .ok s →
        s.length = 8 ∧ (∀ c ∈ s.data, c ∈ chars) ∧ (∀ c ∈ s.data, c.isAlphanum = true) := by
  refine ⟨uuid_no_panic src, fun s hs => ?_⟩
  have h2 := uuid_ok_chars src s hs
  exact ⟨h2.1, h2.2, fun c hc => chars_alphanum c (h2.2 c hc)⟩

theorem uuid_eight_alphanumeric_witness :
    uuid (.batch [250, 0, 255, 27, 249, 52, 251, 252, 253, 254]
        (.batch [61, 248, 7, 33, 255, 60, 1, 2, 3, 4] (.fail "EOF"))) = .ok "Ab09AHh8" ∧
      "Ab09AHh8".length = 8 ∧ (∀ c ∈ "Ab09AHh8".data, c ∈ chars) ∧
      (∀ c ∈ "Ab09AHh8".data, c.isAlphanum = true) :=
  ⟨by decide, (uuid_eight_alphanumeric (.batch [250, 0, 255, 27, 249, 52, 251, 252, 253, 254]
    (.batch [61, 248, 7, 33, 255, 60, 1, 2, 3, 4] (.fail "EOF")))).2 "Ab09AHh8" (by decide)⟩

/-! ## Rejection bound of the ID generator -/

/-- C2 (the code at the byte value 248): `uuid` rejects a byte exactly when
its value is above 248, so the value 248 itself is accepted and mapped to
`A`; `A` is then the image of five accepted byte values (0, 62, 124, 186,
248) and each of the other 61 characters of four. -/
theorem uuid_accepts_248 :
    maxrb = 248 ∧ rejected 248 = false ∧ rejected 249 = true ∧
      (List.range 256).filter (fun c => rejected c) = [249, 250, 251, 252, 253, 254, 255] ∧
      uuid (.batch [248, 248, 248, 248, 248, 248, 248, 248, 248, 248] (.fail "EOF"))
        = .ok "AAAAAAAA" ∧
      (List.range 62).map acceptedFor = 5 :: List.replicate 61 4 := by
  refine ⟨by decide, by decide, by decide, by decide, by decide, by decide⟩

/-! ## Upload handler -/

/-- C5: a request whose method is not `POST` is answered with one JSON
object that has an `error` field and no `uri` or `jobId` field, and the
filesystem state is the one before the request, whatever the headers, the
body, the outcome of the ID generation and the filesystem are. -/
theorem non_post_is_error {σ : Type} (cfg : Config) (os : OS σ) (rand : RandSource)
    (r : Request) (fs : σ) (hm : r.Method ≠ "POST") :
    ∃ w j, jobsHandler cfg os rand r fs = some (w, fs) ∧ w.body = [j] ∧
      j.get "error" ≠ none ∧ j.get "uri" = none ∧ j.get "jobId" = none := by
  have hp := (uuid_no_panic rand)
  unfold jobsHandler
  cases hu : uuid rand with
  | panic => exact (hp hu).elim
  | err e =>
    refine ⟨writeError ⟨[], []⟩ ("uuid generation failed: " ++ e),
      [("error", "uuid generation failed: " ++ e)], rfl, ?_, ?_⟩
    · simp [writeError, ResponseWriter.Fprint, ResponseWriter.HeaderSet]
    · simp [JSONResponse.get, List.lookup]
  | ok g =>
    refine ⟨writeError ((⟨[], []⟩ : ResponseWriter).HeaderSet "Content-Type" "application/json")
      "not a valid endpoint", [("error", "not a valid endpoint")], ?_, ?_, ?_⟩
    · simp only [hm, ne_eq, not_false_eq_true, if_true]
    · simp [writeError, ResponseWriter.Fprint, ResponseWriter.HeaderSet]
    · simp [JSONResponse.get, List.lookup]

theorem non_post_is_error_witness :
    ∃ w j, jobsHandler { baseuri := "http://localhost/", storage := "./storage/" } diskOS
        (.batch [0, 27, 2, 29, 53, 54, 55, 56, 1, 1] (.fail "EOF"))
        { Method := "GET", Header := [("X-JOB-ID", "AbCd1234")], Body := .ok [1, 2] } []
        = some (w, []) ∧ w.body = [j] ∧
      j.get "error" ≠ none ∧ j.get "uri" = none ∧ j.get "jobId" = none :=
  non_post_is_error _ diskOS _ _ [] (by decide)

/-- C9: the candidate ID is generated before anything else is looked at: when
the random source cannot be read, every request, a `POST` with an
`X-JOB-ID` header included, is answered with one JSON object that has an
`error` field and no `uri` or `jobId` field, and the filesystem state is the
one before the request. -/
theorem random_failure_is_error {σ : Type} (cfg : Config) (os : OS σ) (rand : RandSource)
    (r : Request) (fs : σ) (e : String) (hu : uuid rand = .err e) :
    ∃ w j, jobsHandler cfg os rand r fs = some (w, fs) ∧ w.body = [j] ∧
      j.get "error" = some ("uuid generation failed: " ++ e) ∧
      j.get "uri" = none ∧ j.get "jobId" = none := by
  refine ⟨writeError ⟨[], []⟩ ("uuid generation failed: " ++ e),
    [("error", "uuid generation failed: " ++ e)], ?_, ?_, ?_⟩
  · unfold jobsHandler
    rw [hu]
  · simp [writeError, ResponseWriter.Fprint, ResponseWriter.HeaderSet]
  · simp [JSONResponse.get, List.lookup]

theorem random_failure_is_error_witness :
    ∃ w j, jobsHandler { baseuri := "http://localhost/", storage := "./storage/" } diskOS
        (.batch [0, 27, 2, 29, 250, 251, 252, 253, 1, 1] (.fail "unexpected EOF"))
        { Method := "POST", Header := [("X-JOB-FILENAME", "result.txt"), ("X-JOB-ID", "AbCd1234")],
          Body := .ok [1, 2] } []
        = some (w, []) ∧ w.body = [j] ∧
      j.get "error" = some ("uuid generation failed: " ++ "unexpected EOF") ∧
      j.get "uri" = none ∧ j.get "jobId" = none :=
  random_failure_is_error _ diskOS _ _ [] "unexpected EOF" (by decide)

/-- The handler on a `POST` whose ID generation and body read succeed: both
job directories are asked for, the body is written to the target file, and
the answer is decided by the result of that write alone. -/
theorem jobsHandler_post {σ : Type} (cfg : Config) (os : OS σ) (rand : RandSource)
    (r : Request) (fs : σ) (g : String) (content : List Nat)
    (hu : uuid rand = .ok g) (hm : r.Method = "POST") (hb : r.Body = .ok content) :
    jobsHandler cfg os rand r fs =
      (match os.WriteFile (targetFile cfg g r) content 0o755
          (afterMkdirs cfg os (chosenJobId g r) fs) with
        | (some err, fs1) =>
          some (writeError jsonWriter
            ("writing file to " ++ quote (targetFile cfg g r) ++ " failed: " ++ err), fs1)
        | (none, fs1) =>
          some (jsonWriter.Fprint
            [("jobId", chosenJobId g r), ("uploadedFileName", r.HeaderGet "X-JOB-FILENAME"),
             ("uri", cfg.baseuri ++ chosenJobId g r ++ "/" ++ chosenSubDir r ++ "/"
                ++ r.HeaderGet "X-JOB-FILENAME")], fs1)) := by
  unfold jobsHandler
  simp only [hu, hm, hb, afterMkdirs, targetFile, chosenJobId, chosenSubDir, jsonWriter, ne_eq,
    not_true_eq_false, if_false]
  by_cases hj : r.HeaderGet "X-JOB-ID" = ""
  · simp only [hj, if_true]
  · simp only [hj, if_false]

/-- A successful answer to a `POST`: the body was read, the write of the
target file returned no error, and the answer carries the chosen job ID, the
file name and the URI. -/
theorem jobsHandler_success {σ : Type} (cfg : Config) (os : OS σ) (rand : RandSource)
    (r : Request) (fs fs1 : σ) (g : String) (w : ResponseWriter) (j : JSONResponse)
    (hu : uuid rand = .ok g) (hm : r.Method = "POST")
    (hw : jobsHandler cfg os rand r fs = some (w, fs1)) (hj : j ∈ w.body)
    (hs : isSuccess j = true) :
    ∃ content, r.Body = .ok content ∧
      os.WriteFile (targetFile cfg g r) content 0o755 (afterMkdirs cfg os (chosenJobId g r) fs)
        = (none, fs1) ∧
      w = jsonWriter.Fprint
        [("jobId", chosenJobId g r), ("uploadedFileName", r.HeaderGet "X-JOB-FILENAME"),
         ("uri", cfg.baseuri ++ chosenJobId g r ++ "/" ++ chosenSubDir r ++ "/"
            ++ r.HeaderGet "X-JOB-FILENAME")] ∧
      j = [("jobId", chosenJobId g r), ("uploadedFileName", r.HeaderGet "X-JOB-FILENAME"),
         ("uri", cfg.baseuri ++ chosenJobId g r ++ "/" ++ chosenSubDir r ++ "/"
            ++ r.HeaderGet "X-JOB-FILENAME")] := by
  cases hb : r.Body with
  | error e =>
    exfalso
    unfold jobsHandler at hw
    simp only [hu, hm, hb, ne_eq, not_true_eq_false, if_false] at hw
    have hw1 := (Prod.mk.inj (Option.some.inj hw)).1
    rw [← hw1] at hj
    simp [writeError, ResponseWriter.Fprint, ResponseWriter.HeaderSet] at hj
    rw [hj] at hs
    simp [isSuccess, JSONResponse.get, List.lookup] at hs
  | ok content =>
    refine ⟨content, rfl, ?_⟩
    rw [jobsHandler_post cfg os rand r fs g content hu hm hb] at hw
    rcases hwf : os.WriteFile (targetFile cfg g r) content 0o755
        (afterMkdirs cfg os (chosenJobId g r) fs) with ⟨e, fs2⟩
    rw [hwf] at hw
    cases e with
    | some err =>
      exfalso
      simp only [Option.some.injEq, Prod.mk.injEq] at hw
      rw [← hw.1] at hj
      simp [writeError, ResponseWriter.Fprint, ResponseWriter.HeaderSet, jsonWriter] at hj
      rw [hj] at hs
      simp [isSuccess, JSONResponse.get, List.lookup] at hs
    | none =>
      simp only [Option.some.injEq, Prod.mk.injEq] at hw
      refine ⟨by rw [hw.2], hw.1.symm, ?_⟩
      rw [← hw.1] at hj
      simpa [ResponseWriter.Fprint, ResponseWriter.HeaderSet, jsonWriter] using hj

theorem uri_input (b g f : String) : b ++ g ++ "/" ++ "input" ++ "/" ++ f = b ++ g ++ "/input/" ++ f := by
  have h : "/" ++ "input" ++ "/" = "/input/" := by decide
  rw [← h]
  simp only [String.append_assoc]

theorem uri_output (b g f : String) :
    b ++ g ++ "/" ++ "output" ++ "/" ++ f = b ++ g ++ "/output/" ++ f := by
  have h : "/" ++ "output" ++ "/" = "/output/" := by decide
  rw [← h]
  simp only [String.append_assoc]

/-- C4: a successful `POST` with candidate ID `g`, `X-JOB-ID` header `j` and
`X-JOB-FILENAME` header `f`.  With `j` empty the answer's `jobId` is `g`,
its `uri` is `baseuri + g + "/input/" + f`, and the body is written to
`filepath.Join(storage, g, "input", f)` after the two directories of `g`
were asked for.  With `j` non-empty the answer's `jobId` is `j`, its `uri`
is `baseuri + j + "/output/" + f`, the body is written to
`filepath.Join(storage, j, "output", f)` after the two directories of `j`
were asked for, and the candidate ID plays no part: with any other candidate
the directories, the written path, the answer and the final state are the same. -/
theorem upload_job_and_direction {σ : Type} (cfg : Config) (os : OS σ) (rand : RandSource)
    (r : Request) (fs fs1 : σ) (g j f : String) (w : ResponseWriter) (body : JSONResponse)
    (hu : uuid rand = .ok g) (hm : r.Method = "POST")
    (hid : r.HeaderGet "X-JOB-ID" = j) (hname : r.HeaderGet "X-JOB-FILENAME" = f)
    (hw : jobsHandler cfg os rand r fs = some (w, fs1)) (hbody : body ∈ w.body)
    (hs : isSuccess body = true) :
    ∃ content, r.Body = .ok content ∧ w.body = [body] ∧
      (j = "" →
        body = [("jobId", g), ("uploadedFileName", f), ("uri", cfg.baseuri ++ g ++ "/input/" ++ f)] ∧
        os.WriteFile (Join [cfg.storage, g, "input", f]) content 0o755 (afterMkdirs cfg os g fs)
          = (none, fs1)) ∧
      (j ≠ "" →
        body = [("jobId", j), ("uploadedFileName", f), ("uri", cfg.baseuri ++ j ++ "/output/" ++ f)] ∧
        os.WriteFile (Join [cfg.storage, j, "output", f]) content 0o755 (afterMkdirs cfg os j fs)
          = (none, fs1) ∧
        ∀ rand1 g1, uuid rand1 = .ok g1 → jobsHandler cfg os rand1 r fs = some (w, fs1)) := by
  subst hid hname
  obtain ⟨content, hb, hwf, hwe, hje⟩ :=
    jobsHandler_success cfg os rand r fs fs1 g w body hu hm hw hbody hs
  refine ⟨content, hb, ?_, ?_, ?_⟩
  · rw [hwe, hje]
    simp [ResponseWriter.Fprint, jsonWriter, ResponseWriter.HeaderSet]
  · intro hid0
    simp only [targetFile, chosenJobId, chosenSubDir, hid0, if_true] at hwf hje
    rw [uri_input] at hje
    exact ⟨hje, hwf⟩
  · intro hid0
    have hwf1 := hwf
    have hje1 := hje
    simp only [targetFile, chosenJobId, chosenSubDir, hid0, if_false] at hwf1 hje1
    rw [uri_output] at hje1
    refine ⟨hje1, hwf1, ?_⟩
    intro rand1 g1 hu1
    rw [jobsHandler_post cfg os rand1 r fs g1 content hu1 hm hb]
    have ht : targetFile cfg g1 r = targetFile cfg g r := by
      simp only [targetFile, chosenJobId, hid0, if_false]
    have hc : chosenJobId g1 r = chosenJobId g r := by
      simp only [chosenJobId, hid0, if_false]
    rw [ht, hc, hwf]
    simp only [hwe]

theorem upload_job_and_direction_witness :
    ∃ content, (⟨"POST", [("X-JOB-FILENAME", "result.txt"), ("X-JOB-ID", "AbCd1234")],
        .ok [100, 111, 110, 101]⟩ : Request).Body = .ok content ∧
      (⟨[("Content-Type", "application/json")],
        [[("jobId", "AbCd1234"), ("uploadedFileName", "result.txt"),
          ("uri", "http://localhost/AbCd1234/output/result.txt")]]⟩ : ResponseWriter).body
        = [[("jobId", "AbCd1234"), ("uploadedFileName", "result.txt"),
          ("uri", "http://localhost/AbCd1234/output/result.txt")]] ∧
      ("AbCd1234" = "" →
        [("jobId", "AbCd1234"), ("uploadedFileName", "result.txt"),
          ("uri", "http://localhost/AbCd1234/output/result.txt")]
          = [("jobId", "zzZZ0099"), ("uploadedFileName", "result.txt"),
            ("uri", "http://localhost/" ++ "zzZZ0099" ++ "/input/" ++ "result.txt")] ∧
        diskOS.WriteFile (Join ["./storage/", "zzZZ0099", "input", "result.txt"]) content 0o755
            (afterMkdirs ⟨"http://localhost/", "./storage/"⟩ diskOS "zzZZ0099" [])
          = (none, [("storage/AbCd1234/output/result.txt", .file [100, 111, 110, 101]),
              ("storage/AbCd1234/output", .dir), ("storage/AbCd1234/input", .dir),
              ("storage/AbCd1234", .dir), ("storage", .dir)])) ∧
      ("AbCd1234" ≠ "" →
        [("jobId", "AbCd1234"), ("uploadedFileName", "result.txt"),
          ("uri", "http://localhost/AbCd1234/output/result.txt")]
          = [("jobId", "AbCd1234"), ("uploadedFileName", "result.txt"),
            ("uri", "http://localhost/" ++ "AbCd1234" ++ "/output/" ++ "result.txt")] ∧
        diskOS.WriteFile (Join ["./storage/", "AbCd1234", "output", "result.txt"]) content 0o755
            (afterMkdirs ⟨"http://localhost/", "./storage/"⟩ diskOS "AbCd1234" [])
          = (none, [("storage/AbCd1234/output/result.txt", .file [100, 111, 110, 101]),
              ("storage/AbCd1234/output", .dir), ("storage/AbCd1234/input", .dir),
              ("storage/AbCd1234", .dir), ("storage", .dir)]) ∧
        ∀ rand1 g1, uuid rand1 = .ok g1 →
          jobsHandler ⟨"http://localhost/", "./storage/"⟩ diskOS rand1
            ⟨"POST", [("X-JOB-FILENAME", "result.txt"), ("X-JOB-ID", "AbCd1234")],
              .ok [100, 111, 110, 101]⟩ []
            = some (⟨[("Content-Type", "application/json")],
                [[("jobId", "AbCd1234"), ("uploadedFileName", "result.txt"),
                  ("uri", "http://localhost/AbCd1234/output/result.txt")]]⟩,
              [("storage/AbCd1234/output/result.txt", .file [100, 111, 110, 101]),
                ("storage/AbCd1234/output", .dir), ("storage/AbCd1234/input", .dir),
                ("storage/AbCd1234", .dir), ("storage", .dir)])) :=
  upload_job_and_direction ⟨"http://localhost/", "./storage/"⟩ diskOS
    (.batch [51, 51, 25, 25, 52, 52, 61, 61, 1, 1] (.fail "EOF"))
    ⟨"POST", [("X-JOB-FILENAME", "result.txt"), ("X-JOB-ID", "AbCd1234")], .ok [100, 111, 110, 101]⟩
    [] _ "zzZZ0099" "AbCd1234" "result.txt" _ _ (by decide) (by decide) (by decide) (by decide)
    (by decide) (by decide) (by decide)

/-! ## Storage errors and unsafe names -/

/-- A failed write of the target file is answered with one JSON object that
has an `error` field and no `uri` or `jobId` field. -/
theorem write_failure_is_error {σ : Type} (cfg : Config) (os : OS σ) (rand : RandSource)
    (r : Request) (fs : σ) (g : String) (content : List Nat) (e : String)
    (hu : uuid rand = .ok g) (hm : r.Method = "POST") (hb : r.Body = .ok content)
    (hwrite : (os.WriteFile (targetFile cfg g r) content 0o755
      (afterMkdirs cfg os (chosenJobId g r) fs)).1 = some e) :
    ∃ w j fs1, jobsHandler cfg os rand r fs = some (w, fs1) ∧ w.body = [j] ∧
      j.get "error" = some ("writing file to " ++ quote (targetFile cfg g r) ++ " failed: " ++ e) ∧
      j.get "uri" = none ∧ j.get "jobId" = none := by
  rw [jobsHandler_post cfg os rand r fs g content hu hm hb]
  rcases hwf : os.WriteFile (targetFile cfg g r) content 0o755
      (afterMkdirs cfg os (chosenJobId g r) fs) with ⟨e1, fs2⟩
  rw [hwf] at hwrite
  simp only at hwrite
  subst hwrite
  refine ⟨_, [("error", "writing file to " ++ quote (targetFile cfg g r) ++ " failed: " ++ e)],
    fs2, rfl, ?_, ?_⟩
  · simp [writeError, ResponseWriter.Fprint, ResponseWriter.HeaderSet, jsonWriter]
  · simp [JSONResponse.get, List.lookup]

/-- C6 (the code where a directory cannot be created): on a storage where
`storage/J/input` is a regular file (the state the handler itself leaves
after a `POST` with `X-JOB-ID: J/x` and `X-JOB-FILENAME: ../../input`), a
`POST` with `X-JOB-ID: J` has its `os.MkdirAll` of the input directory fail
with "not a directory"; the handler drops that error, writes
`storage/J/output/f` and answers with `jobId` and `uri`. -/
theorem mkdir_failure_answered_with_success :
    jobsHandler sampleCfg diskOS sampleSource (samplePost "J/x" "../../input" [1]) []
      = some (⟨[("Content-Type", "application/json")],
          [[("jobId", "J/x"), ("uploadedFileName", "../../input"),
            ("uri", "http://localhost/J/x/output/../../input")]]⟩,
        [("storage/J/input", .file [1]), ("storage/J/x/output", .dir),
          ("storage/J/x/input", .dir), ("storage/J/x", .dir), ("storage/J", .dir),
          ("storage", .dir)]) ∧
    diskOS.MkdirAll (Join [sampleCfg.storage, "J", "input"]) ModeDir
        [("storage/J/input", .file [1]), ("storage/J/x/output", .dir),
          ("storage/J/x/input", .dir), ("storage/J/x", .dir), ("storage/J", .dir),
          ("storage", .dir)]
      = (some "mkdir storage/J/input: not a directory",
        [("storage/J/input", .file [1]), ("storage/J/x/output", .dir),
          ("storage/J/x/input", .dir), ("storage/J/x", .dir), ("storage/J", .dir),
          ("storage", .dir)]) ∧
    jobsHandler sampleCfg diskOS sampleSource (samplePost "J" "f" [2, 3])
        [("storage/J/input", .file [1]), ("storage/J/x/output", .dir),
          ("storage/J/x/input", .dir), ("storage/J/x", .dir), ("storage/J", .dir),
          ("storage", .dir)]
      = some (⟨[("Content-Type", "application/json")],
          [[("jobId", "J"), ("uploadedFileName", "f"), ("uri", "http://localhost/J/output/f")]]⟩,
        [("storage/J/output/f", .file [2, 3]), ("storage/J/output", .dir),
          ("storage/J/input", .file [1]), ("storage/J/x/output", .dir),
          ("storage/J/x/input", .dir), ("storage/J/x", .dir), ("storage/J", .dir),
          ("storage", .dir)]) ∧
    isSuccess [("jobId", "J"), ("uploadedFileName", "f"), ("uri", "http://localhost/J/output/f")]
      = true := by
  refine ⟨by decide, by decide, by decide, by decide⟩

/-- C10: the file name is used as it comes.  With the default storage
`./storage/` and the name `../../../etc/passwd`, a successful upload writes
the body to `filepath.Join(storage, jobId, "input", fileName)`, which is
`etc/passwd`: outside `storage/AbCd1234/input` and outside the storage
root; the claim's own example `../../etc/passwd` gives
`storage/etc/passwd`, outside the job's directory.  The returned `uri` is
still `baseuri + jobId + "/input/" + fileName`. -/
theorem traversal_escapes_storage :
    jobsHandler sampleCfg diskOS sampleSource (samplePost "" "../../../etc/passwd" [114, 111])
        [("etc", .dir)]
      = some (⟨[("Content-Type", "application/json")],
          [[("jobId", "AbCd1234"), ("uploadedFileName", "../../../etc/passwd"),
            ("uri", sampleCfg.baseuri ++ "AbCd1234" ++ "/" ++ "input" ++ "/"
              ++ "../../../etc/passwd")]]⟩,
        [("etc/passwd", .file [114, 111]), ("storage/AbCd1234/output", .dir),
          ("storage/AbCd1234/input", .dir), ("storage/AbCd1234", .dir), ("storage", .dir),
          ("etc", .dir)]) ∧
    isSuccess [("jobId", "AbCd1234"), ("uploadedFileName", "../../../etc/passwd"),
      ("uri", sampleCfg.baseuri ++ "AbCd1234" ++ "/" ++ "input" ++ "/" ++ "../../../etc/passwd")]
      = true ∧
    Join [sampleCfg.storage, "AbCd1234", "input", "../../../etc/passwd"] = "etc/passwd" ∧
    Join [sampleCfg.storage, "AbCd1234", "input"] = "storage/AbCd1234/input" ∧
    HasPrefix "etc/passwd" "storage/AbCd1234/input/" = false ∧
    Clean sampleCfg.storage = "storage" ∧
    HasPrefix "etc/passwd" "storage/" = false ∧
    Join [sampleCfg.storage, "AbCd1234", "input", "../../etc/passwd"] = "storage/etc/passwd" ∧
    HasPrefix "storage/etc/passwd" "storage/AbCd1234/input/" = false := by
  refine ⟨by decide, by decide, by decide, by decide, by decide, by decide, by decide, by decide,
    by decide⟩

theorem write_failure_is_error_witness :
    ∃ w j fs1, jobsHandler sampleCfg diskOS sampleSource (samplePost "" "" [1]) [] = some (w, fs1) ∧
      w.body = [j] ∧
      j.get "error" = some ("writing file to "
        ++ quote (targetFile sampleCfg "AbCd1234" (samplePost "" "" [1])) ++ " failed: "
        ++ "open storage/AbCd1234/input: is a directory") ∧
      j.get "uri" = none ∧ j.get "jobId" = none :=
  write_failure_is_error sampleCfg diskOS sampleSource (samplePost "" "" [1]) [] "AbCd1234" [1]
    "open storage/AbCd1234/input: is a directory" (by decide) (by decide) rfl (by decide)

/-! ## Paths -/

theorem splitSlash_ne_nil (s : List Char) : splitSlash s ≠ [] := by
  cases s with
  | nil => simp [splitSlash]
  | cons c cs =>
    unfold splitSlash
    split
    · simp
    · split <;> simp

theorem splitSlash_cons (c : Char) (cs : List Char) (hc : c ≠ '/') :
    splitSlash (c :: cs) =
      (match splitSlash cs with
      | [] => [[c]]
      | seg :: segs => (c :: seg) :: segs) := by
  rw [splitSlash]
  simp only [hc, if_false]

theorem splitSlash_slash (cs : List Char) : splitSlash ('/' :: cs) = [] :: splitSlash cs := by
  rw [splitSlash]
  simp only [if_true]

theorem splitSlash_append_slash (a b : List Char) :
    splitSlash (a ++ '/' :: b) = splitSlash a ++ splitSlash b := by
  induction a with
  | nil => simp [splitSlash]
  | cons c a ih =>
    by_cases hc : c = '/'
    · simp [splitSlash, hc, ih]
    · have hne := splitSlash_ne_nil a
      rw [List.cons_append, splitSlash_cons _ _ hc, splitSlash_cons _ _ hc, ih]
      cases hs : splitSlash a with
      | nil => exact (hne hs).elim
      | cons seg segs => simp

theorem joinSlash_cons (a : List Char) (segs : List (List Char)) (h : segs ≠ []) :
    joinSlash (a :: segs) = a ++ '/' :: joinSlash segs := by
  cases segs with
  | nil => exact (h rfl).elim
  | cons b rest => rfl

theorem joinSlash_splitSlash (s : List Char) : joinSlash (splitSlash s) = s := by
  induction s with
  | nil => rfl
  | cons c cs ih =>
    by_cases hc : c = '/'
    · rw [hc, splitSlash_slash, joinSlash_cons _ _ (splitSlash_ne_nil cs), ih]
      rfl
    · rw [splitSlash_cons _ _ hc]
      cases hs : splitSlash cs with
      | nil => exact (splitSlash_ne_nil cs hs).elim
      | cons seg segs =>
        rw [hs] at ih
        simp only
        cases segs with
        | nil =>
          simp only [joinSlash] at ih ⊢
          rw [ih]
        | cons b rest =>
          rw [joinSlash_cons _ _ (by simp)] at ih ⊢
          rw [List.cons_append, ih]

theorem mem_splitSlash (s : List Char) (c : Char) (hc : c ∈ s) :
    c = '/' ∨ ∃ seg ∈ splitSlash s, c ∈ seg := by
  induction s with
  | nil => cases hc
  | cons c0 cs ih =>
    by_cases h0 : c0 = '/'
    · rw [h0, splitSlash_slash]
      rcases List.mem_cons.mp hc with h | h
      · left; rw [h, h0]
      · rcases ih h with h1 | ⟨seg, hseg, hmem⟩
        · left; exact h1
        · right; exact ⟨seg, List.mem_cons_of_mem _ hseg, hmem⟩
    · rw [splitSlash_cons _ _ h0]
      cases hs : splitSlash cs with
      | nil => exact (splitSlash_ne_nil cs hs).elim
      | cons seg0 segs =>
        rw [hs] at ih
        simp only
        rcases List.mem_cons.mp hc with h | h
        · right; exact ⟨c0 :: seg0, List.mem_cons_self _ _, by rw [h]; exact List.mem_cons_self _ _⟩
        · rcases ih h with h1 | ⟨seg, hseg, hmem⟩
          · left; exact h1
          · right
            rcases List.mem_cons.mp hseg with h2 | h2
            · exact ⟨c0 :: seg0, List.mem_cons_self _ _, by rw [← h2]; exact List.mem_cons_of_mem _ hmem⟩
            · exact ⟨seg, List.mem_cons_of_mem _ h2, hmem⟩

theorem cleanStep_nil (rooted : Bool) (kept : List (List Char)) : cleanStep rooted kept [] = kept := by
  simp [cleanStep]

theorem cleanStep_dot (rooted : Bool) (kept : List (List Char)) :
    cleanStep rooted kept ['.'] = kept := by
  simp [cleanStep]

theorem cleanStep_plain (rooted : Bool) (kept : List (List Char)) (s : List Char)
    (h : PlainSeg s) : cleanStep rooted kept s = s :: kept := by
  simp [cleanStep, h.1, h.2.1, h.2.2]

theorem foldl_cleanStep_plain (rooted : Bool) (segs : List (List Char))
    (h : ∀ seg ∈ segs, PlainSeg seg) :
    ∀ kept, segs.foldl (cleanStep rooted) kept = segs.reverse ++ kept := by
  induction segs with
  | nil => intro kept; rfl
  | cons seg segs ih =>
    intro kept
    rw [List.foldl_cons, cleanStep_plain rooted kept seg (h seg (List.mem_cons_self _ _)),
      ih (fun x hx => h x (List.mem_cons_of_mem _ hx))]
    simp

theorem cleanChars_double_slash (s rest : List Char) (hs : s ≠ []) :
    cleanChars (s ++ '/' :: '/' :: rest) = cleanChars (s ++ '/' :: rest) := by
  cases s with
  | nil => exact (hs rfl).elim
  | cons c s =>
    have h1 : splitSlash (c :: s ++ '/' :: '/' :: rest)
        = splitSlash (c :: s) ++ ([] :: splitSlash rest) := by
      rw [splitSlash_append_slash]
      simp [splitSlash]
    have h2 : splitSlash (c :: s ++ '/' :: rest) = splitSlash (c :: s) ++ splitSlash rest :=
      splitSlash_append_slash _ _
    simp only [List.cons_append] at h1 h2
    simp only [cleanChars, List.cons_append, h1, h2, List.foldl_append, List.foldl_cons,
      cleanStep_nil]

/-- A path of plain elements starts with a character that is no slash. -/
theorem plain_head (s : List Char) (h : ∀ seg ∈ splitSlash s, PlainSeg seg) :
    ∃ c cs, s = c :: cs ∧ c ≠ '/' := by
  cases s with
  | nil => exact ((h [] (by simp [splitSlash])).1 rfl).elim
  | cons c cs =>
    refine ⟨c, cs, rfl, ?_⟩
    intro hc
    rw [hc, splitSlash_slash] at h
    exact (h [] (List.mem_cons_self _ _)).1 rfl

/-- A path of plain elements does not end with a slash. -/
theorem plain_last (s t : List Char) (h : ∀ seg ∈ splitSlash s, PlainSeg seg) :
    s ≠ t ++ ['/'] := by
  intro hs
  rw [hs, splitSlash_append_slash] at h
  exact (h [] (by simp [splitSlash])).1 rfl

/-- Cleaning a relative path of plain elements changes nothing. -/
theorem cleanChars_relative (s : List Char) (h : ∀ seg ∈ splitSlash s, PlainSeg seg) :
    cleanChars s = s := by
  obtain ⟨c, cs, hs, hc⟩ := plain_head s h
  subst hs
  simp only [cleanChars, hc, decide_False, foldl_cleanStep_plain false _ h, List.append_nil,
    List.reverse_reverse, joinSlash_splitSlash]
  simp

/-- Cleaning a rooted path of plain elements changes nothing. -/
theorem cleanChars_rooted (s : List Char) (h : ∀ seg ∈ splitSlash s, PlainSeg seg) :
    cleanChars ('/' :: s) = '/' :: s := by
  simp only [cleanChars, splitSlash_slash, List.foldl_cons, cleanStep_nil, decide_True,
    foldl_cleanStep_plain true _ h, List.append_nil, List.reverse_reverse, joinSlash_splitSlash]
  simp

/-- A second leading slash is dropped. -/
theorem cleanChars_rooted_twice (s : List Char) (h : ∀ seg ∈ splitSlash s, PlainSeg seg) :
    cleanChars ('/' :: '/' :: s) = '/' :: s := by
  simp only [cleanChars, splitSlash_slash, List.foldl_cons, cleanStep_nil, decide_True,
    foldl_cleanStep_plain true _ h, List.append_nil, List.reverse_reverse, joinSlash_splitSlash]
  simp

/-- The rooted path under the directory `.` is the relative path. -/
theorem cleanChars_dot_rooted (s : List Char) (h : ∀ seg ∈ splitSlash s, PlainSeg seg) :
    cleanChars ('.' :: '/' :: '/' :: s) = s := by
  have hsplit : splitSlash ('.' :: '/' :: '/' :: s) = ['.'] :: [] :: splitSlash s := by
    rw [splitSlash_cons _ _ (by decide), splitSlash_slash, splitSlash_slash]
  have hdot : ('.' : Char) ≠ '/' := by decide
  obtain ⟨c, cs, hs, _⟩ := plain_head s h
  simp only [cleanChars, hsplit, List.foldl_cons, cleanStep_nil, cleanStep_dot, hdot,
    decide_False, foldl_cleanStep_plain false _ h, List.append_nil, List.reverse_reverse,
    joinSlash_splitSlash]
  subst hs
  simp

/-! ## URLs -/

theorem hasSuffix_iff (s suf : String) :
    HasSuffix s suf = true ↔ ∃ t, s.data = t ++ suf.data := by
  unfold HasSuffix
  rw [List.isPrefixOf_iff_prefix, List.reverse_prefix]
  constructor
  · rintro ⟨t, ht⟩; exact ⟨t, ht.symm⟩
  · rintro ⟨t, ht⟩; exact ⟨t, ht.symm⟩

theorem cutBefore_self (sep : Char) (s : List Char) (h : ∀ c ∈ s, c ≠ sep) : cutBefore sep s = s := by
  unfold cutBefore
  rw [List.takeWhile_eq_self_iff]
  intro c hc
  simpa using h c hc

theorem cutAfter_nil (sep : Char) (s : List Char) (h : ∀ c ∈ s, c ≠ sep) : cutAfter sep s = [] := by
  unfold cutAfter
  have hd : s.dropWhile (fun c => decide (c ≠ sep)) = [] := by
    rw [List.dropWhile_eq_nil_iff]
    intro c hc
    simpa using h c hc
  rw [hd]
  rfl

theorem getScheme_http (rest : List Char) :
    getScheme [] ('h' :: 't' :: 't' :: 'p' :: ':' :: rest) = some (['h', 't', 't', 'p'], rest) := by
  rfl

theorem getScheme_https (rest : List Char) :
    getScheme [] ('h' :: 't' :: 't' :: 'p' :: 's' :: ':' :: rest)
      = some (['h', 't', 't', 'p', 's'], rest) := by
  rfl

theorem cutBefore_host (host t : List Char) (h : ∀ c ∈ host, c ≠ '/') :
    cutBefore '/' (host ++ '/' :: t) = host := by
  unfold cutBefore
  induction host with
  | nil => simp
  | cons c host ih =>
    have hc : c ≠ '/' := h c (List.mem_cons_self _ _)
    simp only [List.cons_append, List.takeWhile_cons, hc, ne_eq, not_false_eq_true, decide_True,
      if_true]
    rw [ih (fun x hx => h x (List.mem_cons_of_mem _ hx))]

theorem dropWhile_host (host t : List Char) (h : ∀ c ∈ host, c ≠ '/') :
    (host ++ '/' :: t).dropWhile (fun c => c ≠ '/') = '/' :: t := by
  induction host with
  | nil => simp
  | cons c host ih =>
    have hc : c ≠ '/' := h c (List.mem_cons_self _ _)
    simp only [List.cons_append, List.dropWhile_cons, hc, ne_eq, not_false_eq_true, decide_True,
      if_true]
    exact ih (fun x hx => h x (List.mem_cons_of_mem _ hx))

theorem unescapeUnits_self (s : List Char) (h : ∀ c ∈ s, c ≠ '%') :
    unescapeUnits s = some (s.map PathUnit.lit) := by
  induction s with
  | nil => rfl
  | cons c s ih =>
    have hc : c ≠ '%' := h c (List.mem_cons_self _ _)
    unfold unescapeUnits
    rw [if_neg hc, ih (fun x hx => h x (List.mem_cons_of_mem _ hx))]
    rfl

theorem decodeUnits_lit (s : List Char) : decodeUnits none (s.map PathUnit.lit) = some s := by
  induction s with
  | nil => rfl
  | cons c s ih =>
    simp only [List.map_cons, decodeUnits, ih]
    rfl

theorem unescape_self (s : List Char) (h : ∀ c ∈ s, c ≠ '%') : unescape s = some s := by
  unfold unescape
  rw [unescapeUnits_self s h]
  exact decodeUnits_lit s

/-- No control character passes a test that every control character fails. -/
theorem not_isCTL_of (p : Char → Bool)
    (hp : ∀ n, n < 128 → isCTL (Char.ofNat n) = true → p (Char.ofNat n) = false)
    (c : Char) (hc : p c = true) : isCTL c = false := by
  cases hctl : isCTL c with
  | false => rfl
  | true =>
    have hlt : c.toNat < 128 := by
      simp only [isCTL, Bool.or_eq_true, decide_eq_true_eq] at hctl
      omega
    have h := hp c.toNat hlt (by rw [Char.ofNat_toNat]; exact hctl)
    rw [Char.ofNat_toNat] at h
    rw [h] at hc
    cases hc

theorem hostChar_ne (c : Char) (h : hostChar c = true) :
    c ≠ '/' ∧ c ≠ '?' ∧ c ≠ '#' ∧ isCTL c = false := by
  refine ⟨?_, ?_, ?_, not_isCTL_of hostChar (by decide) c h⟩ <;>
    (intro hc; rw [hc] at h; revert h; decide)

theorem isDigit_ne (c : Char) (h : c.isDigit = true) :
    c ≠ '/' ∧ c ≠ '?' ∧ c ≠ '#' ∧ isCTL c = false := by
  refine ⟨?_, ?_, ?_, not_isCTL_of Char.isDigit (by decide) c h⟩ <;>
    (intro hc; rw [hc] at h; revert h; decide)

theorem dropWhile_head (p : Char → Bool) (s : List Char) (x : Char) (xs : List Char)
    (h : s.dropWhile p = x :: xs) : p x = false := by
  induction s with
  | nil => simp at h
  | cons c s ih =>
    rw [List.dropWhile_cons] at h
    by_cases hc : p c = true
    · rw [if_pos hc] at h; exact ih h
    · rw [if_neg hc] at h
      simp only [List.cons.injEq] at h
      rw [← h.1]
      simpa using hc

/-- The characters of a plain authority: no `/`, `?`, `#`, no control character. -/
theorem plainAuthority_chars (a : List Char) (h : plainAuthority a = true) :
    ∀ c ∈ a, c ≠ '/' ∧ c ≠ '?' ∧ c ≠ '#' ∧ isCTL c = false := by
  simp only [plainAuthority, Bool.and_eq_true, List.all_eq_true] at h
  obtain ⟨⟨_, hname⟩, hport⟩ := h
  intro c hc
  rw [← List.takeWhile_append_dropWhile (fun c => decide (c ≠ ':')) a, List.mem_append] at hc
  rcases hc with hc | hc
  · exact hostChar_ne c (hname c hc)
  · cases hd : a.dropWhile (fun c => decide (c ≠ ':')) with
    | nil => rw [hd] at hc; cases hc
    | cons x xs =>
      rw [hd] at hc hport
      have hx := dropWhile_head _ a x xs hd
      simp only [ne_eq, decide_not, Bool.not_eq_false', decide_eq_true_eq] at hx
      rcases List.mem_cons.mp hc with h1 | h1
      · rw [h1, hx]
        decide
      · exact isDigit_ne c (hport c (by simpa using h1))

theorem nameChar_ne (c : Char) (h : nameChar c = true) :
    c ≠ '/' ∧ c ≠ '?' ∧ c ≠ '#' ∧ c ≠ '%' ∧ isCTL c = false := by
  simp only [nameChar, Bool.and_eq_true, decide_eq_true_eq, Bool.not_eq_true'] at h
  exact ⟨h.1.1.1.1, h.1.1.1.2, h.1.1.2, h.1.2, h.2⟩

/-- The path of a URL `scheme://host/tail` whose tail has no URL syntax. -/
theorem urlPath_chars (pre sch host tail : List Char)
    (hpre : pre.any isCTL = false ∧ ∀ c ∈ pre, c ≠ '#')
    (hsch : ∀ rest, getScheme [] (pre ++ rest) = some (sch, '/' :: '/' :: rest))
    (hhttp : sch.map Char.toLower = ['h', 't', 't', 'p'] ∨
      sch.map Char.toLower = ['h', 't', 't', 'p', 's'])
    (hhost : plainAuthority host = true)
    (htail : ∀ c ∈ tail, c ≠ '?' ∧ c ≠ '#' ∧ c ≠ '%' ∧ isCTL c = false) :
    urlPath (String.mk (pre ++ (host ++ '/' :: tail))) = some (String.mk ('/' :: tail)) := by
  have hh := plainAuthority_chars host hhost
  have hall : ∀ c ∈ pre ++ (host ++ '/' :: tail), c ≠ '#' ∧ isCTL c = false := by
    intro c hc
    simp only [List.mem_append, List.mem_cons] at hc
    rcases hc with hc | hc | hc | hc
    · exact ⟨hpre.2 c hc, by simpa using (List.any_eq_false.mp hpre.1) c hc⟩
    · exact ⟨(hh c hc).2.2.1, (hh c hc).2.2.2⟩
    · rw [hc]; decide
    · exact ⟨(htail c hc).2.1, (htail c hc).2.2.2⟩
  have h0 : (pre ++ (host ++ '/' :: tail)).any isCTL = false := by
    rw [List.any_eq_false]
    intro c hc
    simp [(hall c hc).2]
  have h1 : cutBefore '#' (pre ++ (host ++ '/' :: tail)) = pre ++ (host ++ '/' :: tail) :=
    cutBefore_self _ _ (fun c hc => (hall c hc).1)
  have h1a : cutAfter '#' (pre ++ (host ++ '/' :: tail)) = [] :=
    cutAfter_nil _ _ (fun c hc => (hall c hc).1)
  have h2 : cutBefore '?' ('/' :: '/' :: (host ++ '/' :: tail)) = '/' :: '/' :: (host ++ '/' :: tail) := by
    apply cutBefore_self
    intro c hc
    simp only [List.mem_append, List.mem_cons] at hc
    rcases hc with hc | hc | hc | hc | hc
    · rw [hc]; decide
    · rw [hc]; decide
    · exact (hh c hc).2.1
    · rw [hc]; decide
    · exact (htail c hc).1
  have h3 : unescape ('/' :: tail) = some ('/' :: tail) := by
    apply unescape_self
    intro c hc
    simp only [List.mem_cons] at hc
    rcases hc with hc | hc
    · rw [hc]; decide
    · exact (htail c hc).2.2.1
  have h4 := cutBefore_host host tail (fun c hc => (hh c hc).1)
  have h5 := dropWhile_host host tail (fun c hc => (hh c hc).1)
  unfold urlPath
  simp only [h1, h1a, h0, hsch, h2, List.drop_succ_cons, List.drop_zero, h4, h5, hhost, h3]
  simp [hhttp, unescapeUnits, List.isPrefixOf]

/-- Percent-decoding works on bytes: `%C3%A9` is the one character `é` and
`%2F` is a slash. -/
theorem unescape_bytes :
    unescape "/a%C3%A9%2Fb+c".data = some "/aé/b+c".data ∧
      unescape "/%E2%82%AC".data = some "/€".data ∧
      unescape "/%C3".data = none ∧ unescape "/100%".data = none := by
  refine ⟨by decide, by decide, by decide, by decide⟩

/-! ## Static retrieval -/

theorem not_hasSuffix_slash (tail : List Char) (hplain : ∀ seg ∈ splitSlash tail, PlainSeg seg) :
    HasSuffix (String.mk ('/' :: tail)) "/" = false := by
  cases h : HasSuffix (String.mk ('/' :: tail)) "/" with
  | false => rfl
  | true =>
    exfalso
    obtain ⟨t, ht⟩ := (hasSuffix_iff _ _).mp h
    have ht1 : '/' :: tail = t ++ ['/'] := ht
    obtain ⟨c, cs, hs, _⟩ := plain_head tail hplain
    cases t with
    | nil =>
      rw [hs] at ht1
      simp at ht1
    | cons x t1 =>
      simp only [List.cons_append, List.cons.injEq] at ht1
      exact plain_last tail t1 hplain ht1.2

theorem not_hasSuffix_index (tail : List Char)
    (hlast : (splitSlash tail).getLast? ≠ some ['i', 'n', 'd', 'e', 'x', '.', 'h', 't', 'm', 'l']) :
    HasSuffix (String.mk ('/' :: tail)) "/index.html" = false := by
  cases h : HasSuffix (String.mk ('/' :: tail)) "/index.html" with
  | false => rfl
  | true =>
    exfalso
    obtain ⟨t, ht⟩ := (hasSuffix_iff _ _).mp h
    have ht1 : '/' :: tail = t ++ '/' :: ['i', 'n', 'd', 'e', 'x', '.', 'h', 't', 'm', 'l'] := ht
    have hsplit := congrArg splitSlash ht1
    rw [splitSlash_slash, splitSlash_append_slash] at hsplit
    have hix : splitSlash ['i', 'n', 'd', 'e', 'x', '.', 'h', 't', 'm', 'l']
        = [['i', 'n', 'd', 'e', 'x', '.', 'h', 't', 'm', 'l']] := by decide
    rw [hix] at hsplit
    have hl := congrArg List.getLast? hsplit
    rw [List.getLast?_concat] at hl
    cases hs : splitSlash tail with
    | nil => exact splitSlash_ne_nil tail hs
    | cons seg segs =>
      rw [hs] at hl hlast
      rw [List.getLast?_cons_cons] at hl
      exact hlast hl

/-- The mux answers a `GET` of a path of plain elements (more than one, the
last not `index.html`) with the bytes of the file that `http.Dir` opens for it. -/
theorem mux_plain {σ : Type} (cfg : Config) (os : OS σ) (fs : σ) (tail : List Char)
    (bytes : List Nat)
    (hplain : ∀ seg ∈ splitSlash tail, PlainSeg seg)
    (hslash : '/' ∈ tail)
    (hlast : (splitSlash tail).getLast? ≠ some ['i', 'n', 'd', 'e', 'x', '.', 'h', 't', 'm', 'l'])
    (hnul : Char.ofNat 0 ∉ tail)
    (hopen : os.Open (dirPath cfg (String.mk ('/' :: tail))) fs = some (.file bytes)) :
    mux cfg os (String.mk ('/' :: tail)) fs = .content bytes := by
  obtain ⟨c, cs, hs, hc⟩ := plain_head tail hplain
  have hne : String.mk ('/' :: tail) ≠ "" := by
    intro h
    have := congrArg String.data h
    simp at this
  have hpre : HasPrefix (String.mk ('/' :: tail)) "/" = true := by
    simp [HasPrefix, List.isPrefixOf]
  have hnot : HasPrefix (String.mk tail) "/" = false := by
    rw [hs]
    simp [HasPrefix, List.isPrefixOf, Ne.symm hc]
  have hsuf := not_hasSuffix_slash tail hplain
  have hix := not_hasSuffix_index tail hlast
  have hclean : Clean (String.mk ('/' :: tail)) = String.mk ('/' :: tail) := by
    simp only [Clean, cleanChars_rooted tail hplain]
  have hcp : cleanPath (String.mk ('/' :: tail)) = String.mk ('/' :: tail) := by
    unfold cleanPath
    simp only [hne, if_false, hpre, not_true_eq_false, hclean, hsuf, Bool.false_eq_true,
      false_and]
  have hjobs : String.mk ('/' :: tail) ≠ "/jobs" := by
    intro h
    have h1 : '/' :: tail = ['/', 'j', 'o', 'b', 's'] := congrArg String.data h
    have h2 : '/' ∈ ['j', 'o', 'b', 's'] := by
      rw [← List.tail_eq_of_cons_eq h1]
      exact hslash
    revert h2
    decide
  have hslashed : "/" ++ String.mk tail = String.mk ('/' :: tail) := by
    apply String.ext
    simp
  have hcontains : ('/' :: tail).contains (Char.ofNat 0) = false := by
    cases hcon : ('/' :: tail).contains (Char.ofNat 0) with
    | false => rfl
    | true =>
      exfalso
      simp only [List.contains_eq_any_beq, List.any_eq_true, beq_iff_eq] at hcon
      obtain ⟨x, hx, hx0⟩ := hcon
      rw [← hx0] at hx
      rcases List.mem_cons.mp hx with h0 | h0
      · revert h0; decide
      · exact hnul h0
  unfold mux
  rw [hcp]
  simp only [ne_eq, not_true_eq_false, if_false, hjobs]
  unfold staticHandler
  simp only [hpre, if_true, List.drop_succ_cons, List.drop_zero, hnot, Bool.false_eq_true,
    not_false_eq_true, hslashed, hclean]
  unfold serveFile dirOpen
  simp only [hix, Bool.false_eq_true, if_false, hcontains, hopen, hsuf]

/-- For plain names `http.Dir` opens the file the handler writes: the
request path `/jobId/direction/fileName` names
`filepath.Join(storage, jobId, direction, fileName)`. -/
theorem dirPath_plain (cfg : Config) (g d f : String)
    (hplain : ∀ seg ∈ splitSlash (g.data ++ '/' :: (d.data ++ '/' :: f.data)), PlainSeg seg) :
    dirPath cfg (String.mk ('/' :: (g.data ++ '/' :: (d.data ++ '/' :: f.data))))
      = Join [cfg.storage, g, d, f] := by
  have hgne : g ≠ "" := by
    intro h
    obtain ⟨c, cs, hs, hc⟩ := plain_head _ hplain
    rw [h] at hs
    simp only [List.nil_append, List.cons.injEq] at hs
    exact hc hs.1.symm
  have hclean2 : Clean ("/" ++ String.mk ('/' :: (g.data ++ '/' :: (d.data ++ '/' :: f.data))))
      = String.mk ('/' :: (g.data ++ '/' :: (d.data ++ '/' :: f.data))) := by
    have hdata : ("/" ++ String.mk ('/' :: (g.data ++ '/' :: (d.data ++ '/' :: f.data)))).data
        = '/' :: '/' :: (g.data ++ '/' :: (d.data ++ '/' :: f.data)) := by simp
    simp only [Clean, hdata, cleanChars_rooted_twice _ hplain]
  unfold dirPath
  rw [hclean2]
  by_cases hst : cfg.storage = ""
  · simp only [hst, if_true, Join, ne_eq, not_true_eq_false, if_false, hgne, not_false_eq_true,
      stringsJoin, Clean]
    have h1 : ("." ++ "/" ++ String.mk ('/' :: (g.data ++ '/' :: (d.data ++ '/' :: f.data)))).data
        = '.' :: '/' :: '/' :: (g.data ++ '/' :: (d.data ++ '/' :: f.data)) := by simp
    have h2 : (g ++ "/" ++ (d ++ "/" ++ f)).data = g.data ++ '/' :: (d.data ++ '/' :: f.data) := by
      simp
    have hdot : ¬ ("." : String) = "" := by decide
    simp only [hdot, not_false_eq_true, if_true, h1, h2, cleanChars_dot_rooted _ hplain,
      cleanChars_relative _ hplain]
  · have hsd : cfg.storage.data ≠ [] := fun h => hst (String.ext h)
    simp only [hst, if_false, Join, ne_eq, not_false_eq_true, if_true, stringsJoin, Clean]
    have h1 : (cfg.storage ++ "/"
        ++ String.mk ('/' :: (g.data ++ '/' :: (d.data ++ '/' :: f.data)))).data
        = cfg.storage.data ++ '/' :: '/' :: (g.data ++ '/' :: (d.data ++ '/' :: f.data)) := by simp
    have h2 : (cfg.storage ++ "/" ++ (g ++ "/" ++ (d ++ "/" ++ f))).data
        = cfg.storage.data ++ '/' :: (g.data ++ '/' :: (d.data ++ '/' :: f.data)) := by simp
    simp only [h1, h2, cleanChars_double_slash _ _ hsd]

theorem splitSlash_plain (s : List Char) (h : '/' ∉ s) : splitSlash s = [s] := by
  induction s with
  | nil => simp [splitSlash]
  | cons c s ih =>
    have hc : c ≠ '/' := fun hc => h (by simp [hc])
    have hs : '/' ∉ s := fun hs => h (by simp [hs])
    simp [splitSlash, hc, ih hs]

theorem chars_nameChar : ∀ c ∈ chars, nameChar c = true := by decide

/-- A generated ID is a plain path of one element. -/
theorem uuid_plainPath (src : RandSource) (g : String) (h : uuid src = .ok g) :
    plainPath g = true := by
  obtain ⟨hlen, hmem⟩ := uuid_ok_chars src g h
  have hl : g.data.length = 8 := hlen
  have hname : ∀ c ∈ g.data, nameChar c = true := fun c hc => chars_nameChar c (hmem c hc)
  have hno : '/' ∉ g.data := fun hc => (nameChar_ne _ (hname _ hc)).1 rfl
  simp only [plainPath, splitSlash_plain g.data hno, List.all_cons, List.all_nil, Bool.and_true,
    plainElem, Bool.and_eq_true, List.all_eq_true, decide_eq_true_eq]
  refine ⟨⟨⟨?_, ?_⟩, ?_⟩, hname⟩
  · intro h0; rw [h0] at hl; revert hl; decide
  · intro h0; rw [h0] at hl; revert hl; decide
  · intro h0; rw [h0] at hl; revert hl; decide

/-- The elements of a plain path are kept by `Clean` and made of characters
that stand for themselves. -/
theorem plainPath_segs (s : String) (h : plainPath s = true) :
    (∀ seg ∈ splitSlash s.data, PlainSeg seg) ∧
      ∀ c ∈ s.data, c ≠ '?' ∧ c ≠ '#' ∧ c ≠ '%' ∧ isCTL c = false := by
  simp only [plainPath, List.all_eq_true, plainElem, Bool.and_eq_true, decide_eq_true_eq] at h
  refine ⟨fun seg hseg => ⟨(h seg hseg).1.1.1, (h seg hseg).1.1.2, (h seg hseg).1.2⟩, ?_⟩
  intro c hc
  rcases mem_splitSlash s.data c hc with h1 | ⟨seg, hseg, hmem⟩
  · rw [h1]; decide
  · exact (nameChar_ne c ((h seg hseg).2 c hmem)).2

/-- The decoded path of the URI of a plain upload under a base URI
`scheme://host/` is `/jobId/direction/fileName`. -/
theorem urlPath_uri (scheme host g d f : String)
    (hscheme : scheme = "http" ∨ scheme = "https")
    (hhost : plainAuthority host.data = true)
    (hg : ∀ c ∈ g.data, c ≠ '?' ∧ c ≠ '#' ∧ c ≠ '%' ∧ isCTL c = false)
    (hd : ∀ c ∈ d.data, c ≠ '?' ∧ c ≠ '#' ∧ c ≠ '%' ∧ isCTL c = false)
    (hf : ∀ c ∈ f.data, c ≠ '?' ∧ c ≠ '#' ∧ c ≠ '%' ∧ isCTL c = false) :
    urlPath (scheme ++ "://" ++ host ++ "/" ++ g ++ "/" ++ d ++ "/" ++ f)
      = some (String.mk ('/' :: (g.data ++ '/' :: (d.data ++ '/' :: f.data)))) := by
  have htail : ∀ c ∈ g.data ++ '/' :: (d.data ++ '/' :: f.data),
      c ≠ '?' ∧ c ≠ '#' ∧ c ≠ '%' ∧ isCTL c = false := by
    intro c hc
    simp only [List.mem_append, List.mem_cons] at hc
    rcases hc with hc | hc | hc | hc | hc
    · exact hg c hc
    · rw [hc]; decide
    · exact hd c hc
    · rw [hc]; decide
    · exact hf c hc
  rcases hscheme with hs | hs
  · have hdata : scheme ++ "://" ++ host ++ "/" ++ g ++ "/" ++ d ++ "/" ++ f
        = String.mk (['h', 't', 't', 'p', ':', '/', '/']
            ++ (host.data ++ '/' :: (g.data ++ '/' :: (d.data ++ '/' :: f.data)))) := by
      apply String.ext
      rw [hs]
      simp
    rw [hdata]
    exact urlPath_chars _ ['h', 't', 't', 'p'] host.data _ (by decide)
      (fun rest => getScheme_http _) (by decide) hhost htail
  · have hdata : scheme ++ "://" ++ host ++ "/" ++ g ++ "/" ++ d ++ "/" ++ f
        = String.mk (['h', 't', 't', 'p', 's', ':', '/', '/']
            ++ (host.data ++ '/' :: (g.data ++ '/' :: (d.data ++ '/' :: f.data)))) := by
      apply String.ext
      rw [hs]
      simp
    rw [hdata]
    exact urlPath_chars _ ['h', 't', 't', 'p', 's'] host.data _ (by decide)
      (fun rest => getScheme_https _) (by decide) hhost htail

/-- On a `Disk`, a file that was written without error is found as written. -/
theorem disk_read_after_write (path : String) (content : List Nat) (perm : Nat) (d d1 : Disk)
    (h : diskOS.WriteFile path content perm d = (none, d1)) :
    diskOS.Open path d1 = some (.file content) := by
  simp only [diskOS, Disk.WriteFile] at h
  have hroot : alwaysDir path = false := by
    cases hr : alwaysDir path with
    | false => rfl
    | true =>
      split at h
      · simp at h
      · simp [Disk.stat, hr] at h
  have hd1 : d1 = (path, Node.file content) :: d := by
    split at h
    · simp at h
    · split at h
      · simp at h
      · split at h <;> simp at h
        exact h.symm
  simp [diskOS, Disk.stat, hroot, hd1, List.lookup]

/-- C3, amended: on a filesystem where a file written without error is found
as written, for a base URI `http://host/` or `https://host/` (host name,
optional port), a file name that is a path of plain elements (not empty,
not `.` or `..`, without `?`, `#`, `%` and control characters) whose last
element is not `index.html`, and a job ID header that is empty or such a
path of plain elements: after a successful `POST` the path of the returned
`uri` is `/jobId/direction/fileName`, the file that the static route opens
for it is `filepath.Join(storage, jobId, direction, fileName)`, the file
that was written, and a `GET` of the `uri` is answered with exactly the
uploaded bytes. -/
theorem upload_then_fetch {σ : Type} (cfg : Config) (os : OS σ) (rand : RandSource)
    (r : Request) (fs fs1 : σ) (g : String) (w : ResponseWriter) (j : JSONResponse)
    (scheme host : String)
    (hread : ∀ path content fs0 fs2,
      os.WriteFile path content 0o755 fs0 = (none, fs2) → os.Open path fs2 = some (.file content))
    (hscheme : scheme = "http" ∨ scheme = "https")
    (hhost : plainAuthority host.data = true)
    (hbase : cfg.baseuri = scheme ++ "://" ++ host ++ "/")
    (hname : servedName (r.HeaderGet "X-JOB-FILENAME") = true)
    (hid : r.HeaderGet "X-JOB-ID" = "" ∨ plainPath (r.HeaderGet "X-JOB-ID") = true)
    (hu : uuid rand = .ok g) (hm : r.Method = "POST")
    (hw : jobsHandler cfg os rand r fs = some (w, fs1)) (hj : j ∈ w.body)
    (hs : isSuccess j = true) :
    ∃ uri content, j.get "uri" = some uri ∧ r.Body = .ok content ∧
      uri = cfg.baseuri ++ chosenJobId g r ++ "/" ++ chosenSubDir r ++ "/"
        ++ r.HeaderGet "X-JOB-FILENAME" ∧
      urlPath uri = some ("/" ++ chosenJobId g r ++ "/" ++ chosenSubDir r ++ "/"
        ++ r.HeaderGet "X-JOB-FILENAME") ∧
      dirPath cfg ("/" ++ chosenJobId g r ++ "/" ++ chosenSubDir r ++ "/"
          ++ r.HeaderGet "X-JOB-FILENAME")
        = Join [cfg.storage, chosenJobId g r, chosenSubDir r, r.HeaderGet "X-JOB-FILENAME"] ∧
      fetch cfg os uri fs1 = some (.content content) := by
  obtain ⟨content, hb, hwf, _, hje⟩ := jobsHandler_success cfg os rand r fs fs1 g w j hu hm hw hj hs
  have hG : plainPath (chosenJobId g r) = true := by
    unfold chosenJobId
    rcases hid with h0 | h1
    · rw [if_pos h0]; exact uuid_plainPath rand g hu
    · by_cases h0 : r.HeaderGet "X-JOB-ID" = ""
      · rw [if_pos h0]; exact uuid_plainPath rand g hu
      · rw [if_neg h0]; exact h1
  have hD : plainPath (chosenSubDir r) = true := by
    unfold chosenSubDir
    split <;> decide
  simp only [servedName, Bool.and_eq_true, decide_eq_true_eq] at hname
  obtain ⟨hF, hlastF⟩ := hname
  obtain ⟨hGs, hGc⟩ := plainPath_segs _ hG
  obtain ⟨hDs, hDc⟩ := plainPath_segs _ hD
  obtain ⟨hFs, hFc⟩ := plainPath_segs _ hF
  have hsplit : splitSlash ((chosenJobId g r).data ++ '/' :: ((chosenSubDir r).data ++ '/' ::
      (r.HeaderGet "X-JOB-FILENAME").data))
      = splitSlash (chosenJobId g r).data ++ (splitSlash (chosenSubDir r).data
        ++ splitSlash (r.HeaderGet "X-JOB-FILENAME").data) := by
    rw [splitSlash_append_slash, splitSlash_append_slash]
  have hplain : ∀ seg ∈ splitSlash ((chosenJobId g r).data ++ '/' :: ((chosenSubDir r).data
      ++ '/' :: (r.HeaderGet "X-JOB-FILENAME").data)), PlainSeg seg := by
    intro seg hseg
    rw [hsplit] at hseg
    simp only [List.mem_append] at hseg
    rcases hseg with h1 | h1 | h1
    · exact hGs seg h1
    · exact hDs seg h1
    · exact hFs seg h1
  have hlast : (splitSlash ((chosenJobId g r).data ++ '/' :: ((chosenSubDir r).data ++ '/' ::
      (r.HeaderGet "X-JOB-FILENAME").data))).getLast?
      ≠ some ['i', 'n', 'd', 'e', 'x', '.', 'h', 't', 'm', 'l'] := by
    rw [hsplit, List.getLast?_append, List.getLast?_append]
    cases hsf : splitSlash (r.HeaderGet "X-JOB-FILENAME").data with
    | nil => exact (splitSlash_ne_nil _ hsf).elim
    | cons seg segs =>
      rw [hsf] at hlastF
      cases hl : (seg :: segs).getLast? with
      | none => simp at hl
      | some x =>
        rw [hl] at hlastF
        simpa using hlastF
  have hnul : Char.ofNat 0 ∉ (chosenJobId g r).data ++ '/' :: ((chosenSubDir r).data ++ '/' ::
      (r.HeaderGet "X-JOB-FILENAME").data) := by
    intro hmem
    have hctl : isCTL (Char.ofNat 0) = true := by decide
    simp only [List.mem_append, List.mem_cons] at hmem
    rcases hmem with h1 | h1 | h1 | h1 | h1
    · rw [(hGc _ h1).2.2.2] at hctl; cases hctl
    · revert h1; decide
    · rw [(hDc _ h1).2.2.2] at hctl; cases hctl
    · revert h1; decide
    · rw [(hFc _ h1).2.2.2] at hctl; cases hctl
  have hpath : "/" ++ chosenJobId g r ++ "/" ++ chosenSubDir r ++ "/"
      ++ r.HeaderGet "X-JOB-FILENAME"
      = String.mk ('/' :: ((chosenJobId g r).data ++ '/' :: ((chosenSubDir r).data ++ '/' ::
        (r.HeaderGet "X-JOB-FILENAME").data))) := by
    apply String.ext
    simp
  have hurl := urlPath_uri scheme host (chosenJobId g r) (chosenSubDir r)
    (r.HeaderGet "X-JOB-FILENAME") hscheme hhost hGc hDc hFc
  rw [← hbase, ← hpath] at hurl
  have hdir := dirPath_plain cfg (chosenJobId g r) (chosenSubDir r)
    (r.HeaderGet "X-JOB-FILENAME") hplain
  rw [← hpath] at hdir
  have hopen := hread _ _ _ _ hwf
  have hmux := mux_plain cfg os fs1 _ content hplain (by simp) hlast hnul
    (by rw [← hpath, hdir]; exact hopen)
  rw [← hpath] at hmux
  refine ⟨_, content, ?_, hb, rfl, hurl, hdir, ?_⟩
  · rw [hje]
    simp [JSONResponse.get, List.lookup]
  · unfold fetch
    rw [hurl]
    simp only [hmux]

theorem upload_then_fetch_witness :
    ∃ uri content,
      JSONResponse.get [("jobId", "AbCd1234"), ("uploadedFileName", "my+report.txt"),
        ("uri", "http://localhost/AbCd1234/input/my+report.txt")] "uri" = some uri ∧
      (samplePost "" "my+report.txt" [104, 101, 108, 108, 111]).Body = .ok content ∧
      uri = sampleCfg.baseuri
        ++ chosenJobId "AbCd1234" (samplePost "" "my+report.txt" [104, 101, 108, 108, 111]) ++ "/"
        ++ chosenSubDir (samplePost "" "my+report.txt" [104, 101, 108, 108, 111]) ++ "/"
        ++ (samplePost "" "my+report.txt" [104, 101, 108, 108, 111]).HeaderGet "X-JOB-FILENAME" ∧
      urlPath uri = some ("/"
        ++ chosenJobId "AbCd1234" (samplePost "" "my+report.txt" [104, 101, 108, 108, 111]) ++ "/"
        ++ chosenSubDir (samplePost "" "my+report.txt" [104, 101, 108, 108, 111]) ++ "/"
        ++ (samplePost "" "my+report.txt" [104, 101, 108, 108, 111]).HeaderGet "X-JOB-FILENAME") ∧
      dirPath sampleCfg ("/"
          ++ chosenJobId "AbCd1234" (samplePost "" "my+report.txt" [104, 101, 108, 108, 111]) ++ "/"
          ++ chosenSubDir (samplePost "" "my+report.txt" [104, 101, 108, 108, 111]) ++ "/"
          ++ (samplePost "" "my+report.txt" [104, 101, 108, 108, 111]).HeaderGet "X-JOB-FILENAME")
        = Join [sampleCfg.storage,
            chosenJobId "AbCd1234" (samplePost "" "my+report.txt" [104, 101, 108, 108, 111]),
            chosenSubDir (samplePost "" "my+report.txt" [104, 101, 108, 108, 111]),
            (samplePost "" "my+report.txt" [104, 101, 108, 108, 111]).HeaderGet "X-JOB-FILENAME"] ∧
      fetch sampleCfg diskOS uri
        [("storage/AbCd1234/input/my+report.txt", .file [104, 101, 108, 108, 111]),
          ("storage/AbCd1234/output", .dir), ("storage/AbCd1234/input", .dir),
          ("storage/AbCd1234", .dir), ("storage", .dir)] = some (.content content) :=
  upload_then_fetch sampleCfg diskOS sampleSource
    (samplePost "" "my+report.txt" [104, 101, 108, 108, 111]) []
    [("storage/AbCd1234/input/my+report.txt", .file [104, 101, 108, 108, 111]),
      ("storage/AbCd1234/output", .dir), ("storage/AbCd1234/input", .dir),
      ("storage/AbCd1234", .dir), ("storage", .dir)]
    "AbCd1234"
    ⟨[("Content-Type", "application/json")],
      [[("jobId", "AbCd1234"), ("uploadedFileName", "my+report.txt"),
        ("uri", "http://localhost/AbCd1234/input/my+report.txt")]]⟩
    [("jobId", "AbCd1234"), ("uploadedFileName", "my+report.txt"),
      ("uri", "http://localhost/AbCd1234/input/my+report.txt")]
    "http" "localhost"
    (fun path content d d1 h => disk_read_after_write path content 0o755 d d1 h)
    (Or.inl rfl) (by decide) (by decide) (by decide) (by decide) (by decide) (by decide)
    (by decide) (by decide) (by decide)

/-- C3, as stated, fails: the file name `dir%2Freport.txt` (what the
uploader sends for the local path `dir/report.txt`) is written to
`storage/AbCd1234/input/dir%2Freport.txt`, the returned `uri` ends in
`dir%2Freport.txt`, its decoded path is `/AbCd1234/input/dir/report.txt`,
for which the static route opens another file, and the `GET` is answered
with an error status.  The same happens with the file name `a?b`, whose
`uri` has the path `/AbCd1234/input/a`; and a `GET` of the `uri` of the file
name `index.html` is answered with a redirect to `./`. -/
theorem upload_then_fetch_fails_for_url_syntax :
    jobsHandler sampleCfg diskOS sampleSource (samplePost "" "dir%2Freport.txt" [104, 105]) []
      = some (⟨[("Content-Type", "application/json")],
          [[("jobId", "AbCd1234"), ("uploadedFileName", "dir%2Freport.txt"),
            ("uri", "http://localhost/AbCd1234/input/dir%2Freport.txt")]]⟩,
        [("storage/AbCd1234/input/dir%2Freport.txt", .file [104, 105]),
          ("storage/AbCd1234/output", .dir), ("storage/AbCd1234/input", .dir),
          ("storage/AbCd1234", .dir), ("storage", .dir)]) ∧
    isSuccess [("jobId", "AbCd1234"), ("uploadedFileName", "dir%2Freport.txt"),
      ("uri", "http://localhost/AbCd1234/input/dir%2Freport.txt")] = true ∧
    Join [sampleCfg.storage, "AbCd1234", "input", "dir%2Freport.txt"]
      = "storage/AbCd1234/input/dir%2Freport.txt" ∧
    urlPath "http://localhost/AbCd1234/input/dir%2Freport.txt"
      = some "/AbCd1234/input/dir/report.txt" ∧
    dirPath sampleCfg "/AbCd1234/input/dir/report.txt" = "storage/AbCd1234/input/dir/report.txt" ∧
    fetch sampleCfg diskOS "http://localhost/AbCd1234/input/dir%2Freport.txt"
      [("storage/AbCd1234/input/dir%2Freport.txt", .file [104, 105]),
        ("storage/AbCd1234/output", .dir), ("storage/AbCd1234/input", .dir),
        ("storage/AbCd1234", .dir), ("storage", .dir)] = some .failed ∧
    jobsHandler sampleCfg diskOS sampleSource (samplePost "" "a?b" [104, 105]) []
      = some (⟨[("Content-Type", "application/json")],
          [[("jobId", "AbCd1234"), ("uploadedFileName", "a?b"),
            ("uri", "http://localhost/AbCd1234/input/a?b")]]⟩,
        [("storage/AbCd1234/input/a?b", .file [104, 105]),
          ("storage/AbCd1234/output", .dir), ("storage/AbCd1234/input", .dir),
          ("storage/AbCd1234", .dir), ("storage", .dir)]) ∧
    urlPath "http://localhost/AbCd1234/input/a?b" = some "/AbCd1234/input/a" ∧
    fetch sampleCfg diskOS "http://localhost/AbCd1234/input/a?b"
      [("storage/AbCd1234/input/a?b", .file [104, 105]),
        ("storage/AbCd1234/output", .dir), ("storage/AbCd1234/input", .dir),
        ("storage/AbCd1234", .dir), ("storage", .dir)] = some .failed ∧
    jobsHandler sampleCfg diskOS sampleSource (samplePost "" "index.html" [104, 105]) []
      = some (⟨[("Content-Type", "application/json")],
          [[("jobId", "AbCd1234"), ("uploadedFileName", "index.html"),
            ("uri", "http://localhost/AbCd1234/input/index.html")]]⟩,
        [("storage/AbCd1234/input/index.html", .file [104, 105]),
          ("storage/AbCd1234/output", .dir), ("storage/AbCd1234/input", .dir),
          ("storage/AbCd1234", .dir), ("storage", .dir)]) ∧
    fetch sampleCfg diskOS "http://localhost/AbCd1234/input/index.html"
      [("storage/AbCd1234/input/index.html", .file [104, 105]),
        ("storage/AbCd1234/output", .dir), ("storage/AbCd1234/input", .dir),
        ("storage/AbCd1234", .dir), ("storage", .dir)] = some (.redirect "./") := by
  refine ⟨by decide, by decide, by decide, by decide, by decide, by decide, by decide, by decide,
    by decide, by decide, by decide⟩

/-! ## Upload client -/

/-- C7: on a response body that parses as the JSON object of strings `m`,
`postJobFile` looks at the `error` key first: it fails whenever `m` has
`error`, whatever else `m` has; it fails whenever `uri` or `jobId` is
missing; otherwise it returns exactly `m["uri"]` and `m["jobId"]`.  So it
succeeds if and only if `error` is absent and `uri` and `jobId` are present. -/
theorem postJobFile_checks_error_first (baseuri : String) (net : String → Request → Exchange)
    (content : List Nat) (fileName jobid : String) (body : String) (m : JSONResponse)
    (hnet : net (baseuri ++ "jobs") (uploadRequest content fileName jobid) = .response body m) :
    (∀ e, m.get "error" = some e →
      postJobFile baseuri net content fileName jobid = .error ("server responded with " ++ e)) ∧
    (m.get "uri" = none ∨ m.get "jobId" = none →
      ∃ msg, postJobFile baseuri net content fileName jobid = .error msg) ∧
    (∀ u i, m.get "error" = none → m.get "uri" = some u → m.get "jobId" = some i →
      postJobFile baseuri net content fileName jobid = .ok (u, i)) ∧
    ((∃ res, postJobFile baseuri net content fileName jobid = .ok res) ↔
      m.get "error" = none ∧ m.get "uri" ≠ none ∧ m.get "jobId" ≠ none) := by
  have hpost : postJobFile baseuri net content fileName jobid =
      (match m.get "error" with
      | some respError => .error ("server responded with " ++ respError)
      | none =>
        match m.get "uri" with
        | none => .error ("Upload Error - Server Response " ++ body)
        | some uploadedFileUri =>
          match m.get "jobId" with
          | none => .error ("Upload Error - Server Response " ++ body)
          | some jobId => .ok (uploadedFileUri, jobId)) := by
    unfold postJobFile
    simp only [hnet]
  rw [hpost]
  cases he : m.get "error" <;> cases hu : m.get "uri" <;> cases hi : m.get "jobId" <;> simp

theorem postJobFile_checks_error_first_witness :
    (∀ e, JSONResponse.get [("error", "boom"), ("uri", "u"), ("jobId", "AbCd1234")] "error" = some e →
      postJobFile "http://localhost/"
        (fun _ _ => .response "" [("error", "boom"), ("uri", "u"), ("jobId", "AbCd1234")])
        [104, 105] "report.txt" "" = .error ("server responded with " ++ e)) ∧
    (JSONResponse.get [("error", "boom"), ("uri", "u"), ("jobId", "AbCd1234")] "uri" = none ∨
      JSONResponse.get [("error", "boom"), ("uri", "u"), ("jobId", "AbCd1234")] "jobId" = none →
      ∃ msg, postJobFile "http://localhost/"
        (fun _ _ => .response "" [("error", "boom"), ("uri", "u"), ("jobId", "AbCd1234")])
        [104, 105] "report.txt" "" = .error msg) ∧
    (∀ u i, JSONResponse.get [("error", "boom"), ("uri", "u"), ("jobId", "AbCd1234")] "error" = none →
      JSONResponse.get [("error", "boom"), ("uri", "u"), ("jobId", "AbCd1234")] "uri" = some u →
      JSONResponse.get [("error", "boom"), ("uri", "u"), ("jobId", "AbCd1234")] "jobId" = some i →
      postJobFile "http://localhost/"
        (fun _ _ => .response "" [("error", "boom"), ("uri", "u"), ("jobId", "AbCd1234")])
        [104, 105] "report.txt" "" = .ok (u, i)) ∧
    ((∃ res, postJobFile "http://localhost/"
        (fun _ _ => .response "" [("error", "boom"), ("uri", "u"), ("jobId", "AbCd1234")])
        [104, 105] "report.txt" "" = .ok res) ↔
      JSONResponse.get [("error", "boom"), ("uri", "u"), ("jobId", "AbCd1234")] "error" = none ∧
      JSONResponse.get [("error", "boom"), ("uri", "u"), ("jobId", "AbCd1234")] "uri" ≠ none ∧
      JSONResponse.get [("error", "boom"), ("uri", "u"), ("jobId", "AbCd1234")] "jobId" ≠ none) :=
  postJobFile_checks_error_first "http://localhost/"
    (fun _ _ => .response "" [("error", "boom"), ("uri", "u"), ("jobId", "AbCd1234")])
    [104, 105] "report.txt" "" "" [("error", "boom"), ("uri", "u"), ("jobId", "AbCd1234")]
    rfl

/-- C8 (the code at the flag value `httpbin.org`): the value starts with
`http`, so `init` adds the trailing `/` and no scheme: the normalised base
URI is `httpbin.org/`, which starts with neither `http://` nor `https://`. -/
theorem uploaderInit_httpbin :
    uploaderInit "httpbin.org" = "httpbin.org/" ∧
      HasPrefix (uploaderInit "httpbin.org") "http://" = false ∧
      HasPrefix (uploaderInit "httpbin.org") "https://" = false ∧
      HasSuffix (uploaderInit "httpbin.org") "/" = true := by
  decide

/-- What the normalisation of the uploader's `init` does give for every flag
value: a base URI that ends with `/` and starts with `http`. -/
theorem uploaderInit_shape (flagB : String) :
    HasSuffix (uploaderInit flagB) "/" = true ∧ HasPrefix (uploaderInit flagB) "http" = true := by
  have hsuf : ∀ a b : String, HasSuffix b "/" = true → HasSuffix (a ++ b) "/" = true := by
    intro a b h
    simp only [HasSuffix, String.data_append, List.reverse_append] at h ⊢
    rw [List.isPrefixOf_iff_prefix] at h ⊢
    exact h.trans (List.prefix_append _ _)
  have hslash : ∀ a : String, HasSuffix (a ++ "/") "/" = true := fun a => hsuf a "/" (by decide)
  have hpre : ∀ b : String, HasPrefix ("http://" ++ b) "http" = true := by
    intro b
    simp only [HasPrefix, String.data_append]
    rw [List.isPrefixOf_iff_prefix]
    exact (show "http".data <+: "http://".data by decide).trans (List.prefix_append _ _)
  unfold uploaderInit
  by_cases h1 : HasSuffix flagB "/" = true
  · by_cases h2 : HasPrefix flagB "http" = true
    · simp [h1, h2]
    · simp [h1, h2, hsuf, hpre]
  · by_cases h2 : HasPrefix (flagB ++ "/") "http" = true
    · simp [h1, h2, hslash]
    · simp [h1, h2, hsuf, hslash, hpre]

end ArtifactServer
